import Mathlib

/-!
Shallow embedding of the `webciel/plugin` client-side templating framework:
the name-keyed callback registry, the localization resolver, the cached
fetch helper, the fragment loader (`LoadPage` / `LoadTemplate` /
`LoadIncludes` / `LoadScripts`) and the request helper (`Api`), together
with theorems settling the behavioural claims about them.

Strings manipulated by the scanners are modelled as `List Char`.
-/

set_option linter.unusedVariables false

abbrev Chars := List Char

/-- Single-quote character, written via its code point. -/
def qCh : Char := Char.ofNat 39

/-- Double-quote character. -/
def dqCh : Char := Char.ofNat 34

/-- Left-brace character. -/
def lbCh : Char := Char.ofNat 123

/-- Right-brace character. -/
def rbCh : Char := Char.ofNat 125

/-- JS `\s` on the ASCII range (space, tab, LF, VT, FF, CR). -/
def isWs (c : Char) : Bool :=
  c = ' ' || c = '\t' || c = '\n' || c = '\r' || c = Char.ofNat 11 || c = Char.ofNat 12

/-- Quote characters accepted by the marker grammars (`['"]`). -/
def isQuote (c : Char) : Bool := c = qCh || c = dqCh

/-- Match a literal character sequence at the front of `s`, returning the
remaining suffix on success. -/
def matchLit : Chars → Chars → Option Chars
  | [], s => some s
  | _ :: _, [] => none
  | l :: ls, c :: cs => if c = l then matchLit ls cs else none

/-- Greedily drop leading whitespace (the semantics of a `\s*` that is
followed by a non-whitespace literal). -/
def skipWs : Chars → Chars
  | [] => []
  | c :: cs => if isWs c then skipWs cs else c :: cs

/-- Greedy run of non-quote characters (the `[^'"]+` capture group). -/
def takeName : Chars → Chars × Chars
  | [] => ([], [])
  | c :: cs =>
    if isQuote c then ([], c :: cs)
    else
      let r := takeName cs
      (c :: r.1, r.2)

/-- Association-list lookup (first match wins, as for JS object keys). -/
def lookupA {α : Type} : List (String × α) → String → Option α
  | [], _ => none
  | (k, v) :: rest, key => if k = key then some v else lookupA rest key

/-- Association-list update: overwrite the entry in place if present,
append otherwise (JS object assignment). -/
def setA {α : Type} : List (String × α) → String → α → List (String × α)
  | [], key, v => [(key, v)]
  | (k, w) :: rest, key, v =>
    if k = key then (key, v) :: rest else (k, w) :: setA rest key v

/-- Boolean prefix test on character lists. -/
def pfx : Chars → Chars → Bool
  | [], _ => true
  | _ :: _, [] => false
  | a :: as, b :: bs => a = b && pfx as bs

/-- Dollar character, the ECMAScript substitution escape. -/
def dollarCh : Char := Char.ofNat 36

/-- Ampersand character. -/
def ampCh : Char := Char.ofNat 38

/-- Backtick character (code point 96). -/
def btCh : Char := Char.ofNat 96

/-- ECMAScript `GetSubstitution` for a plain-string search value: in the
replacement template a dollar followed by a second dollar yields a literal
dollar, followed by an ampersand re-inserts the matched text, followed by
a backtick re-inserts the text before the match, and followed by a single
quote re-inserts the text after the match; a dollar in any other position
is literal.  A string search value has no capture groups, so numbered
references also pass through unchanged. -/
def getSubstitution (matched before after : Chars) : Chars → Chars
  | [] => []
  | [c] => [c]
  | c :: d :: tl =>
    if c = dollarCh then
      if d = dollarCh then dollarCh :: getSubstitution matched before after tl
      else if d = ampCh then matched ++ getSubstitution matched before after tl
      else if d = btCh then before ++ getSubstitution matched before after tl
      else if d = qCh then after ++ getSubstitution matched before after tl
      else c :: getSubstitution matched before after (d :: tl)
    else c :: getSubstitution matched before after (d :: tl)

/-- True when the text holds no dollar character, so `GetSubstitution`
leaves it unchanged. -/
def dollarFree (s : Chars) : Bool := s.all (fun c => c != dollarCh)

/-- Split `s` at the first occurrence of `pat`: the text before the match
and the text after it, or `none` when `pat` never occurs. -/
def splitFirst (pat : Chars) : Chars → Option (Chars × Chars)
  | [] => if pat = [] then some ([], []) else none
  | c :: cs =>
    if pfx pat (c :: cs) then some ([], (c :: cs).drop pat.length)
    else
      match splitFirst pat cs with
      | none => none
      | some (pre, post) => some (c :: pre, post)

/-- JS `String.prototype.replace` with a plain-string pattern: replace the
first occurrence of `pat` (scanning left to right) by the
`GetSubstitution` expansion of `repl` — `$`-patterns in the replacement
re-insert matched or surrounding text — or return `s` unchanged when
there is no occurrence. -/
def replaceFirst (s pat repl : Chars) : Chars :=
  match splitFirst pat s with
  | none => s
  | some (pre, post) => pre ++ (getSubstitution pat pre post repl ++ post)

/-- JS `String.prototype.replaceAll` with a plain-string pattern: replace
every non-overlapping occurrence, left to right, without rescanning
replacement text; each occurrence is replaced by the `GetSubstitution`
expansion of `repl`, whose before/after texts are measured against the
original string.  Structured with explicit fuel (initialised to the text
length, which a scan with a nonempty pattern can never exhaust) so that
it computes by kernel reduction. -/
def replaceAllAux (pat repl orig : Chars) : Nat → Nat → Chars → Chars
  | 0, _, s => s
  | fuel + 1, pos, s =>
    match s with
    | [] => []
    | c :: cs =>
      if pfx pat (c :: cs) then
        getSubstitution pat (orig.take pos) (orig.drop (pos + pat.length)) repl ++
          replaceAllAux pat repl orig fuel (pos + pat.length) ((c :: cs).drop pat.length)
      else
        c :: replaceAllAux pat repl orig fuel (pos + 1) cs

/-- JS `replaceAll` (always called with nonempty brace-delimited patterns
here). -/
def replaceAll (pat repl s : Chars) : Chars := replaceAllAux pat repl s s.length 0 s

/-! ### The marker grammar

`<!--\s*include\(['"]([^'"]+)['"]\)\s*-->` and the analogous `script`
marker.  `word` below is the literal `include(` or `script(` portion.
Because the character classes involved (`\s`, `[^'"]`) are disjoint from the
literals that follow them, the regex backtracking is vacuous and the match
at a given start position is computed deterministically. -/

/-- Expect one quote character (either kind) at the front. -/
def expectQuote : Chars → Option Chars
  | q :: s => if isQuote q then some s else none
  | [] => none

/-- The `[^'"]+` capture: a nonempty greedy run of non-quote characters. -/
def takeNamePos (s : Chars) : Option (Chars × Chars) :=
  match takeName s with
  | ([], _) => none
  | (n1 :: nr, r) => some (n1 :: nr, r)

/-- Try to match a marker at the very start of `s`; on success return the
captured name and the suffix after the match. -/
def tryMarker (word : Chars) (s : Chars) : Option (Chars × Chars) :=
  (matchLit ['<', '!', '-', '-'] s).bind fun s1 =>
  (matchLit word (skipWs s1)).bind fun s3 =>
  (expectQuote s3).bind fun s4 =>
  (takeNamePos s4).bind fun nmr =>
  (expectQuote nmr.2).bind fun s6 =>
  (matchLit [')'] s6).bind fun s7 =>
  (matchLit ['-', '-', '>'] (skipWs s7)).bind fun s9 =>
  some (nmr.1, s9)

/-- Leftmost marker match in `s`: start index, captured name, and length of
the matched text. -/
def findMarker (word : Chars) : Chars → Option (Nat × Chars × Nat)
  | [] =>
    match tryMarker word [] with
    | some (nm, rest) => some (0, nm, 0 - rest.length)
    | none => none
  | c :: tl =>
    match tryMarker word (c :: tl) with
    | some (nm, rest) => some (0, nm, (c :: tl).length - rest.length)
    | none =>
      match findMarker word tl with
      | none => none
      | some (i, nm, len) => some (i + 1, nm, len)

/-- Fuelled scan for every non-overlapping marker match in a fixed string,
left to right (the `while (regex.exec(...))` loop over an unchanging
string): the list of captured names.  Each step consumes at least one
character, so fuel `s.length` is never exhausted. -/
def scanMarkersAux (word : Chars) : Nat → Chars → List Chars
  | 0, _ => []
  | fuel + 1, s =>
    match tryMarker word s with
    | some (nm, rest) => nm :: scanMarkersAux word fuel rest
    | none =>
      match s with
      | [] => []
      | _ :: tl => scanMarkersAux word fuel tl

/-- All marker names in `s`, in match order. -/
def scanMarkers (word s : Chars) : List Chars := scanMarkersAux word s.length s

/-- Nested locale tree: string leaves or string-keyed objects. -/
inductive LocaleTree where
  | str (s : String)
  | obj (fields : List (String × LocaleTree))

/-- Process-wide locale registration state plus the host's UI language. -/
structure LocEnv where
  locales : List (String × LocaleTree)
  fallback : String
  uiLanguage : Option String

/-- JS `key.split('.')` on a character list (empty segments kept). -/
def splitOnDot : Chars → List Chars
  | [] => [[]]
  | c :: cs =>
    if c = '.' then [] :: splitOnDot cs
    else
      match splitOnDot cs with
      | [] => [[c]]
      | p :: ps => (c :: p) :: ps

/-- Dotted-path traversal driven by the split key parts (the `for` loop of
`getNestedValue`): descend through objects while each part is a present
key; succeed only if the walk ends on a string leaf. -/
def walkParts : List Chars → LocaleTree → Option String
  | [], LocaleTree.str s => some s
  | [], LocaleTree.obj _ => none
  | _ :: _, LocaleTree.str _ => none
  | p :: ps, LocaleTree.obj fs =>
    match lookupA fs (String.mk p) with
    | some v => walkParts ps v
    | none => none

/-- Model of `getNestedValue(locale, key)`. -/
def getNestedValue (locale : LocaleTree) (key : Chars) : Option String :=
  walkParts (splitOnDot key) locale

/-- JS `raw.split('-')[0]`: the primary language subtag. -/
def primarySubtag (s : String) : String :=
  String.mk (s.data.takeWhile (fun c => c ≠ '-'))

/-- Model of `getLocale()`: take the host UI language (falling back when the
accessor is absent or yields the empty string), keep its primary subtag,
and use it only when registered. -/
def getLocale (le : LocEnv) : String :=
  let raw :=
    match le.uiLanguage with
    | some s => if s = "" then le.fallback else s
    | none => le.fallback
  let lang := primarySubtag raw
  match lookupA le.locales lang with
  | some _ => lang
  | none => le.fallback

/-- Model of `useLocale()`. -/
def useLocale (le : LocEnv) : LocaleTree :=
  match lookupA le.locales (getLocale le) with
  | some l => l
  | none => LocaleTree.obj []

/-- Character class `[\w\d_.]` of the translation-token key capture. -/
def isWordDot (c : Char) : Bool :=
  ('a' ≤ c && c ≤ 'z') || ('A' ≤ c && c ≤ 'Z') || ('0' ≤ c && c ≤ '9') || c = '_' || c = '.'

/-- Greedy run of key characters. -/
def takeKey : Chars → Chars × Chars
  | [] => ([], [])
  | c :: cs =>
    if isWordDot c then
      let r := takeKey cs
      (c :: r.1, r.2)
    else ([], c :: cs)

/-- Expect one given character at the front. -/
def expectCh (b : Char) : Chars → Option Chars
  | c :: s => if c = b then some s else none
  | [] => none

/-- The `[\w\d_.]+` capture: a nonempty greedy run of key characters. -/
def takeKeyPos (s : Chars) : Option (Chars × Chars) :=
  match takeKey s with
  | ([], _) => none
  | (k1 :: ks, r) => some (k1 :: ks, r)

/-- Try to match a translation token at the start of `s`
(pattern `lb lb \s* locale. key \s* rb rb` where lb/rb are braces);
on success return the captured dotted key and the suffix after the match. -/
def tryLocToken (s : Chars) : Option (Chars × Chars) :=
  (expectCh lbCh s).bind fun s1 =>
  (expectCh lbCh s1).bind fun s2 =>
  (matchLit ['l', 'o', 'c', 'a', 'l', 'e', '.'] (skipWs s2)).bind fun s4 =>
  (takeKeyPos s4).bind fun kr =>
  (expectCh rbCh (skipWs kr.2)).bind fun s5 =>
  (expectCh rbCh s5).bind fun s6 =>
  some (kr.1, s6)

/-- Fuelled scan of `applyTranslations(html)`: scan left to right; at each
position replace a matched token by its resolution (or by the visible
`locale.<key>` placeholder, recording a warning) and continue after the
match without rescanning the replacement.  Each step consumes at least one
character, so fuel `s.length` is never exhausted. -/
def applyTranslationsAux (le : LocEnv) : Nat → Chars → Chars × List Chars
  | 0, _ => ([], [])
  | fuel + 1, s =>
    match tryLocToken s with
    | some (key, rest) =>
      let r := applyTranslationsAux le fuel rest
      match getNestedValue (useLocale le) key with
      | some v => (v.data ++ r.1, r.2)
      | none => (['l', 'o', 'c', 'a', 'l', 'e', '.'] ++ key ++ r.1, key :: r.2)
    | none =>
      match s with
      | [] => ([], [])
      | c :: tl =>
        let r := applyTranslationsAux le fuel tl
        (c :: r.1, r.2)

/-- Rewritten text and warned-about keys, in encounter order. -/
def applyTranslations (le : LocEnv) (s : Chars) : Chars × List Chars :=
  applyTranslationsAux le s.length s

/-- Result of running one step of a load operation. -/
inductive Outcome (α : Type) where
  | ok (a : α)
  | err (msg : String)
  | hang
deriving DecidableEq

/-- Insertion modes of `LoadTemplate`. -/
inductive LoadMode where
  | append
  | prepend
  | innerHTML
deriving DecidableEq

/-- Observable events of a load operation, in order of occurrence. -/
inductive Ev where
  | netFetch (path : String)
  | warn (caller msg : String)
  | errorLog (caller msg : String)
  | execCb (key : String) (id : Nat)
  | scriptAppend (src : String)
  | splice (html : Chars)
  | insertDom (element : String) (mode : LoadMode) (html : Chars)
  | icons
  | setPage (pageName : String)
deriving DecidableEq

/-- Mutable state threaded through a load operation: the session-storage
text cache, the sources of script tags present in the document, and the
event trace. -/
structure St where
  storage : List (String × Chars)
  scripts : List String
  events : List Ev
deriving DecidableEq

/-- Registry entry: the callback is abstracted by an identity tag, the
`async` flag, and whether invoking it throws (rejects). -/
structure RegEntry where
  id : Nat
  isAsync : Bool
  throws : Bool
deriving DecidableEq

/-- Fixed environment of a load operation: what the network returns for
each extension-resource path (`none` = the fetch rejects), the locale
state, whether the `_root` element exists, the callback registry, and
whether the script at a given src loads successfully (`false` = its
promise never settles). -/
structure Env where
  fetchR : String → Option Chars
  loc : LocEnv
  rootExists : Bool
  registries : List (String × RegEntry)
  scriptLoads : String → Bool

/-- State-and-outcome monad of a load operation. -/
def M (α : Type) : Type := St → Outcome α × St

def M.pure {α : Type} (a : α) : M α := fun s => (Outcome.ok a, s)

def M.bind {α β : Type} (x : M α) (f : α → M β) : M β := fun s =>
  match x s with
  | (Outcome.ok a, s1) => f a s1
  | (Outcome.err m, s1) => (Outcome.err m, s1)
  | (Outcome.hang, s1) => (Outcome.hang, s1)

instance : Monad M where
  pure := M.pure
  bind := M.bind

/-- Throwing inside a load operation. -/
def M.throw {α : Type} (msg : String) : M α := fun s => (Outcome.err msg, s)

/-- An awaited promise that never settles. -/
def M.stall {α : Type} : M α := fun s => (Outcome.hang, s)

def emit (e : Ev) : M Unit := fun s =>
  (Outcome.ok (), { s with events := s.events ++ [e] })

def getStore (k : String) : M (Option Chars) := fun s =>
  (Outcome.ok (lookupA s.storage k), s)

def setStore (k : String) (v : Chars) : M Unit := fun s =>
  (Outcome.ok (), { s with storage := setA s.storage k v })

def getScripts : M (List String) := fun s => (Outcome.ok s.scripts, s)

def addScript (src : String) : M Unit := fun s =>
  (Outcome.ok (), { s with scripts := s.scripts ++ [src] })

/-! ### Cached fetch helper and script loader (`src/unnamed/part_001`) -/

/-- Model of `cachedViewKey(path)`. -/
def cachedViewKey (path : String) : String :=
  "[commanders_act_assistant:framework:load:" ++ path ++ "]"

/-- Network part of `fetchWithCache`: fetch the resource, read its text
(also for non-2xx responses — the helper never checks `response.ok`),
store it under the cache key and return it. -/
def fetchNetwork (env : Env) (path : String) (cacheKey : String) : M Chars := do
  emit (Ev.netFetch path)
  match env.fetchR path with
  | none => M.throw "fetch failed"
  | some text => do
    setStore cacheKey text
    M.pure text

/-- Model of `fetchWithCache(path)`.  `if (cachedItem) return cachedItem`
treats a cached empty string as falsy, hence as a miss. -/
def fetchWithCache (env : Env) (path : String) : M Chars := do
  let cacheKey := cachedViewKey path
  let cachedItem ← getStore cacheKey
  match cachedItem with
  | some t => if t ≠ [] then M.pure t else fetchNetwork env path cacheKey
  | none => fetchNetwork env path cacheKey

/-- Literal `script(` of the script-marker regex. -/
def scriptWord : Chars := ['s', 'c', 'r', 'i', 'p', 't', '(']

/-- Literal `include(` of the include-marker regex. -/
def includeWord : Chars := ['i', 'n', 'c', 'l', 'u', 'd', 'e', '(']

/-- Resolved source of a fragment script (`<basePath>/<name>.js`). -/
def scriptSrcOf (basePath : String) (nm : Chars) : String :=
  basePath ++ "/" ++ String.mk nm ++ ".js"

/-- Script-appending phase of `LoadScripts`: for each discovered marker
name, skip it when a script tag with the resolved src already exists,
otherwise append the tag (making it visible to later duplicate checks)
and collect its src.  Returns the srcs whose load promises are awaited. -/
def appendScripts (basePath : String) : List Chars → M (List String)
  | [] => M.pure []
  | nm :: rest => do
    let src := scriptSrcOf basePath nm
    let loaded ← getScripts
    if src ∈ loaded then appendScripts basePath rest
    else do
      addScript src
      emit (Ev.scriptAppend src)
      let others ← appendScripts basePath rest
      M.pure (src :: others)

/-- Model of `LoadScripts(htmlContent, basePath)`: scan for script markers,
append the new script tags, then `Promise.all` their load events.  Each
promise resolves only in its `onload` handler — no error handler is
attached — so if any appended script fails to load the await never
completes. -/
def LoadScripts (env : Env) (htmlContent : Chars) (basePath : String) : M Unit := do
  let newSrcs ← appendScripts basePath (scanMarkers scriptWord htmlContent)
  if newSrcs.all env.scriptLoads then M.pure () else M.stall

/-- Translation step as used inside load operations: rewrite the text and
log one warning per unresolved key (the source logs them under the caller
label `registerLocales`). -/
def translateM (env : Env) (s : Chars) : M Chars := fun st =>
  let r := applyTranslations env.loc s
  (Outcome.ok r.1,
   { st with events := st.events ++
       r.2.map (fun k => Ev.warn "registerLocales" ("Missing translation: locale." ++ String.mk k)) })

/-! ### Inclusion resolution (`LoadIncludes`)

The source is a `while ((match = includeRegex.exec(htmlContent)) !== null)`
loop in which `htmlContent` is reassigned by `replace` while the regex
object keeps its `lastIndex` from the string of the previous iteration.
The model makes that resume position explicit.  The loop need not
terminate (fetched content can keep introducing markers past the resume
position), so it takes fuel; running out of fuel is modelled as the
operation never completing. -/

def includeLoop (env : Env) : Nat → Chars → Nat → List String → M (Chars × List String)
  | 0, _, _, _ => M.stall
  | fuel + 1, htmlContent, lastIdx, incs =>
    match findMarker includeWord (htmlContent.drop lastIdx) with
    | none => M.pure (htmlContent, incs)
    | some (rel, nm, len) => do
      let absStart := lastIdx + rel
      let matched := (htmlContent.drop absStart).take len
      let includeRegistry := "includes/" ++ String.mk nm
      let fetched ← fetchWithCache env ("includes/" ++ String.mk nm ++ "/index.html")
      let includeContent ← translateM env fetched
      LoadScripts env includeContent includeRegistry
      includeLoop env fuel (replaceFirst htmlContent matched includeContent)
        (absStart + len) (incs ++ [includeRegistry])

/-- Model of `LoadIncludes(htmlContent)`: returns the rewritten fragment
and the registry keys of the inclusions that were resolved, in resolution
order. -/
def LoadIncludes (env : Env) (fuel : Nat) (htmlContent : Chars) : M (Chars × List String) :=
  includeLoop env fuel htmlContent 0 []

/-! ### Callback registry (`src/unnamed/part_000`) -/

/-- Model of `Register(name, fn, options)` as a function of the registry
table: a non-callable `fn` (here `none`) is rejected with a warning and no
table change; otherwise the entry overwrites any previous one for the
key.  Returns the new table and the warnings logged. -/
def Register (regs : List (String × RegEntry)) (name : String) (fn : Option RegEntry) :
    List (String × RegEntry) × List String :=
  match fn with
  | none => (regs, ["Invalid onMount function for \"" ++ name ++ "\""])
  | some entry => (setA regs name entry, [])

/-- Model of `Execute(name)`: look the entry up; warn and no-op when
absent; otherwise invoke the stored callback (recorded as an `execCb`
event), propagating a rejection as a thrown error. -/
def Execute (env : Env) (name : String) : M Unit := fun s =>
  match lookupA env.registries name with
  | none =>
    (Outcome.ok (),
     { s with events := s.events ++ [Ev.warn "Execute" ("No function found for \"" ++ name ++ "\"")] })
  | some entry =>
    if entry.throws then
      (Outcome.err "callback rejected", { s with events := s.events ++ [Ev.execCb name entry.id] })
    else
      (Outcome.ok (), { s with events := s.events ++ [Ev.execCb name entry.id] })

/-- The `if (Registries?.[key]) await Execute(key)` guard used by the
loaders. -/
def execRegistered (env : Env) (key : String) : M Unit :=
  match lookupA env.registries key with
  | some _ => Execute env key
  | none => M.pure ()

/-- Dispatch loop over the resolved inclusions of a page. -/
def execIncludes (env : Env) : List String → M Unit
  | [] => M.pure ()
  | reg :: rest => do
    execRegistered env reg
    execIncludes env rest

/-- Model of `SetCurrentPage(name)`. -/
def SetCurrentPage (env : Env) (pageName : String) : M Unit := fun s =>
  if env.rootExists then
    (Outcome.ok (), { s with events := s.events ++ [Ev.setPage pageName] })
  else
    (Outcome.ok (),
     { s with events := s.events ++ [Ev.errorLog "SetCurrentPage" "Element with ID \"_root\" not found"] })

/-! ### Page and template loaders -/

/-- First three stages of `LoadPage`: fetch the page fragment, apply
translations, resolve inclusions. -/
def pageStages (env : Env) (fuel : Nat) (pageName : String) : M (Chars × List String) := do
  let raw ← fetchWithCache env ("pages/" ++ pageName ++ "/index.html")
  let htmlContent ← translateM env raw
  LoadIncludes env fuel htmlContent

/-- Body of `LoadPage` before its try/catch: after inclusion resolution the
`_root` element is required (the check precedes `LoadScripts`), then the
page scripts are loaded, the result is spliced, the page callback and then
each inclusion callback are dispatched, icons are refreshed and the
current-page marker is updated. -/
def LoadPageInner (env : Env) (fuel : Nat) (pageName : String) : M Unit := do
  let r ← pageStages env fuel pageName
  if env.rootExists then do
    let pageRegistry := "pages/" ++ pageName
    LoadScripts env r.1 pageRegistry
    emit (Ev.splice r.1)
    execRegistered env pageRegistry
    execIncludes env r.2
    emit Ev.icons
    SetCurrentPage env pageName
  else M.throw "Element with ID \"_root\" not found"

/-- Model of `LoadPage(name)`: the body wrapped in try/catch — a thrown
error is logged and swallowed. -/
def LoadPage (env : Env) (fuel : Nat) (pageName : String) : M Unit := fun s =>
  match LoadPageInner env fuel pageName s with
  | (Outcome.err _, s1) =>
    (Outcome.ok (),
     { s1 with events := s1.events ++ [Ev.errorLog "LoadPage" ("Error loading page: " ++ pageName)] })
  | other => other

/-- Options of `LoadTemplate` (the target element is abstracted by an
identifier recorded in the insertion event). -/
structure LoadTemplateOptions where
  element : String
  mode : LoadMode
  replacements : List (String × Chars)

/-- Literal `{key}` placeholder substitution: for each replacement entry in
order, `replaceAll` of the brace-delimited key. -/
def applyReplacements : List (String × Chars) → Chars → Chars
  | [], h => h
  | (k, v) :: rest, h =>
    applyReplacements rest (replaceAll (lbCh :: (k.data ++ [rbCh])) v h)

/-- Body of `LoadTemplate` before its try/catch: fetch the template
fragment, load its scripts (from the raw text, before substitution),
apply the literal replacements, translate, insert per mode, dispatch the
registered callback if any, refresh icons. -/
def LoadTemplateInner (env : Env) (templatePath : String) (options : LoadTemplateOptions) : M Unit := do
  let raw ← fetchWithCache env ("templates/" ++ templatePath ++ "/index.html")
  let templateRegistry := "templates/" ++ templatePath
  LoadScripts env raw templateRegistry
  let replaced := applyReplacements options.replacements raw
  let htmlContent ← translateM env replaced
  emit (Ev.insertDom options.element options.mode htmlContent)
  execRegistered env templateRegistry
  emit Ev.icons

/-- Model of `LoadTemplate(templatePath, options)`: the body wrapped in
try/catch — a thrown error is logged and swallowed. -/
def LoadTemplate (env : Env) (templatePath : String) (options : LoadTemplateOptions) : M Unit := fun s =>
  match LoadTemplateInner env templatePath options s with
  | (Outcome.err _, s1) =>
    (Outcome.ok (),
     { s1 with events := s1.events ++
         [Ev.errorLog "LoadTemplate" ("Failed to load template: " ++ templatePath)] })
  | other => other

/-! ### Request helper (`src/api.ts`)

The request cache stores, per exact URL key, the JSON `data` payload and
the write timestamp.  Time is passed explicitly (`Date.now()` at the call).
Payloads are modelled as JSON values because the cache-hit test
`if (cachedData)` is a JS truthiness test on the payload itself. -/

/-- JSON values (the parsed response body and cached payloads). -/
inductive JVal where
  | jnull
  | jbool (b : Bool)
  | jnum (n : Int)
  | jstr (s : String)
  | jarr (xs : List JVal)
  | jobj (fields : List (String × JVal))

/-- JS truthiness of a JSON value. -/
def JVal.truthy : JVal → Bool
  | jnull => false
  | jbool b => b
  | jnum n => n ≠ 0
  | jstr s => s ≠ ""
  | jarr _ => true
  | jobj _ => true

/-- Constructor options of `Api`. -/
structure ApiCfg where
  baseUrl : String
  headers : List (String × String)

/-- Request-helper state: the session-storage request cache (URL key to
payload and timestamp) and the URLs hit on the network, in order. -/
structure ApiSt where
  store : List (String × (JVal × Nat))
  netCalls : List String

/-- Call-site options of `Api.request` with their defaults. -/
structure ReqOptions where
  method : String := "GET"
  body : Option JVal := none
  headers : List (String × String) := []
  useCache : Bool := true

/-- Response record of `Api.request`.  The `reload` closure re-issues the
same call with `useCache: false`; it is modelled by the captured endpoint
and options it would use. -/
structure ApiResp where
  method : String
  url : String
  data : JVal
  status : Nat
  reloadEndpoint : String
  reloadOptions : ReqOptions

/-- Cache key of the request cache for a URL. -/
def apiCacheKey (url : String) : String := "[webciel-plugin:API:" ++ url ++ "]"

/-- One hour in milliseconds (`cacheDuration`). -/
def cacheDuration : Nat := 60 * 60 * 1000

namespace Api

/-- Model of `Api.getCacheData(cacheKey, useCache)`: `null` unless caching
is requested, an entry exists and its age is strictly under the TTL.
(Stored entries are well-formed by construction, so the invalid-format
branch of the source is unreachable here.) -/
def getCacheData (useCache : Bool) (cacheKey : String) (now : Nat) (st : ApiSt) : Option JVal :=
  if useCache then
    match lookupA st.store cacheKey with
    | some (d, ts) => if now - ts < cacheDuration then some d else none
    | none => none
  else none

/-- The `json.data` payload extraction: the `data` field of an object
body; absent fields or non-object bodies give `null` (undefined behaves
like null for the truthiness test). -/
def responseData (json : JVal) : JVal :=
  match json with
  | JVal.jobj fs => (lookupA fs "data").getD JVal.jnull
  | _ => JVal.jnull

/-- Network part of `Api.request`: fetch, reject on a non-2xx status with
an error naming the status code, extract the `data` field of the JSON
body, and on success write the cache entry when caching is enabled. -/
def networkPart (resp : String → Option (Nat × JVal)) (endpoint : String)
    (rawOptions : ReqOptions) (now : Nat) (url cacheKey : String) (st : ApiSt) :
    Except String ApiResp × ApiSt :=
  let st1 : ApiSt := { st with netCalls := st.netCalls ++ [url] }
  match resp url with
  | none => (Except.error "network failure", st1)
  | some (status, json) =>
    if 200 ≤ status ∧ status < 300 then
      let data := responseData json
      let st2 : ApiSt :=
        if rawOptions.useCache then
          { st1 with store := setA st1.store cacheKey (data, now) }
        else st1
      (Except.ok
        { method := rawOptions.method, url := url, data := data, status := status,
          reloadEndpoint := endpoint,
          reloadOptions := { rawOptions with useCache := false } }, st2)
    else (Except.error ("HTTP Error: " ++ toString status), st1)

/-- Model of `Api.request(endpoint, rawOptions)` at time `now`.  `resp`
gives, per URL, the HTTP status and parsed JSON body (`none` = the fetch
rejects).  A fresh cache entry is served only when its payload is truthy
(`if (cachedData)`); otherwise the call falls through to the network. -/
def request (resp : String → Option (Nat × JVal)) (cfg : ApiCfg) (endpoint : String)
    (rawOptions : ReqOptions) (now : Nat) (st : ApiSt) : Except String ApiResp × ApiSt :=
  let url := cfg.baseUrl ++ endpoint
  let cacheKey := apiCacheKey url
  match getCacheData rawOptions.useCache cacheKey now st with
  | some d =>
    if d.truthy then
      (Except.ok
        { method := rawOptions.method, url := url, data := d, status := 200,
          reloadEndpoint := endpoint,
          reloadOptions := { rawOptions with useCache := false } }, st)
    else networkPart resp endpoint rawOptions now url cacheKey st
  | none => networkPart resp endpoint rawOptions now url cacheKey st

/-- Model of invoking `reload()` on a response at time `now`: re-issue the
captured call with `useCache: false`. -/
def doReload (resp : String → Option (Nat × JVal)) (cfg : ApiCfg) (r : ApiResp)
    (now : Nat) (st : ApiSt) : Except String ApiResp × ApiSt :=
  request resp cfg r.reloadEndpoint r.reloadOptions now st

end Api

/-! ### Scanning lemmas

Facts about the marker scanners used to settle the loader claims: markers
start with `<`, so scans skip `<`-free text; a well-formed marker built by
`mkMarker` is matched exactly. -/

/-- The literal text of a marker (`<!-- word'nm') -->` with single
quotes and single inner spacing), as produced in the fetched fragments. -/
def mkMarker (word nm : Chars) : Chars :=
  ['<', '!', '-', '-', ' '] ++ word ++ [qCh] ++ nm ++ [qCh] ++ [')', ' ', '-', '-', '>']

/-- Text containing no `<` cannot contain a marker start. -/
def ltFree (s : Chars) : Bool := s.all (fun c => c != '<')

/-- Warning events produced by one translation pass. -/
def warnEvents (le : LocEnv) (s : Chars) : List Ev :=
  (applyTranslations le s).2.map
    (fun k => Ev.warn "registerLocales" ("Missing translation: locale." ++ String.mk k))

/-- Callback-invocation events. -/
def isExecEv : Ev → Bool
  | Ev.execCb _ _ => true
  | _ => false

/-- Empty initial load state. -/
def st0 : St := ⟨[], [], []⟩

/-- Empty locale state. -/
def wLoc : LocEnv := ⟨[], "en", none⟩

/-- Environment witnessing the amended dispatch-order claim: page `p`
holds markers for `a` and `b`; the include contents are marker-free and
the first is 21 characters long. -/
def envC1W : Env where
  fetchR := fun p =>
    if p = "pages/p/index.html" then
      some ([] ++ (mkMarker includeWord ['a'] ++ (['x'] ++ (mkMarker includeWord ['b'] ++ []))))
    else if p = "includes/a/index.html" then some (List.replicate 21 'x')
    else if p = "includes/b/index.html" then some ['y']
    else none
  loc := wLoc
  rootExists := true
  registries := [("pages/p", ⟨0, false, false⟩), ("includes/a", ⟨1, false, false⟩),
    ("includes/b", ⟨2, false, false⟩)]
  scriptLoads := fun _ => true

/-- Environment refuting the literal dispatch claim: the content fetched
for include `a` is empty, so after substitution the second marker starts
before the regex resume position and is never matched. -/
def envC1X : Env where
  fetchR := fun p =>
    if p = "pages/p/index.html" then
      some (mkMarker includeWord ['a'] ++ mkMarker includeWord ['b'])
    else if p = "includes/a/index.html" then some []
    else if p = "includes/b/index.html" then some ['y']
    else none
  loc := wLoc
  rootExists := true
  registries := [("pages/p", ⟨0, false, false⟩), ("includes/a", ⟨1, false, false⟩),
    ("includes/b", ⟨2, false, false⟩)]
  scriptLoads := fun _ => true

/-- Environment for the nested-inclusion witness: include `a` expands to
21 characters of padding followed by the marker for `b`. -/
def envC2W : Env where
  fetchR := fun pth =>
    if pth = "includes/a/index.html" then
      some (List.replicate 21 'x' ++ (mkMarker includeWord ['b'] ++ []))
    else if pth = "includes/b/index.html" then some ['h', 'i']
    else none
  loc := wLoc
  rootExists := true
  registries := []
  scriptLoads := fun _ => true

/-- Environment refuting the depth-first claim: include `a` expands to
exactly the marker for `b`, which lands before the resume position. -/
def envC2X : Env where
  fetchR := fun pth =>
    if pth = "includes/a/index.html" then some (mkMarker includeWord ['b'])
    else if pth = "includes/b/index.html" then some ['h', 'i']
    else none
  loc := wLoc
  rootExists := true
  registries := []
  scriptLoads := fun _ => true

/-- Error-log events. -/
def isErrorEv : Ev → Bool
  | Ev.errorLog _ _ => true
  | _ => false

/-- Environment with a page that carries a script marker but no `_root`
element in the document. -/
def envC3X : Env where
  fetchR := fun p => if p = "pages/p/index.html" then some (mkMarker scriptWord ['s']) else none
  loc := wLoc
  rootExists := false
  registries := []
  scriptLoads := fun _ => true

/-- Environment whose page script never fires its load event. -/
def envC5X : Env where
  fetchR := fun p => if p = "pages/p/index.html" then some (mkMarker scriptWord ['s']) else none
  loc := wLoc
  rootExists := true
  registries := []
  scriptLoads := fun _ => false

/-- Environment whose resource `f` fetches to the empty string. -/
def envC9X : Env where
  fetchR := fun p => if p = "f" then some [] else none
  loc := wLoc
  rootExists := true
  registries := []
  scriptLoads := fun _ => true

/-- Environment whose resource `f` fetches to nonempty text. -/
def envC9W : Env where
  fetchR := fun p => if p = "f" then some ['t'] else none
  loc := wLoc
  rootExists := true
  registries := []
  scriptLoads := fun _ => true

/-- Text containing no left brace cannot contain a token start. -/
def lbFree (s : Chars) : Bool := s.all (fun c => c != lbCh)

/-- The canonical surface form of a translation token for key `k`. -/
def locToken (k : Chars) : Chars :=
  [lbCh, lbCh, ' '] ++ (['l', 'o', 'c', 'a', 'l', 'e', '.'] ++ (k ++ [' ', rbCh, rbCh]))

/-- A fragment described as alternating literal text and translation
tokens. -/
def renderPieces : List (Chars ⊕ Chars) → Chars
  | [] => []
  | Sum.inl lit :: r => lit ++ renderPieces r
  | Sum.inr k :: r => locToken k ++ renderPieces r

/-- The expected output: literals verbatim, tokens replaced by their
resolution or by the visible `locale.<key>` placeholder. -/
def renderResolved (le : LocEnv) : List (Chars ⊕ Chars) → Chars
  | [] => []
  | Sum.inl lit :: r => lit ++ renderResolved le r
  | Sum.inr k :: r =>
    (match getNestedValue (useLocale le) k with
     | some v => v.data
     | none => ['l', 'o', 'c', 'a', 'l', 'e', '.'] ++ k) ++ renderResolved le r

/-- The keys expected to be warned about, in encounter order. -/
def missedKeys (le : LocEnv) : List (Chars ⊕ Chars) → List Chars
  | [] => []
  | Sum.inl _ :: r => missedKeys le r
  | Sum.inr k :: r =>
    match getNestedValue (useLocale le) k with
    | some _ => missedKeys le r
    | none => k :: missedKeys le r

/-- Well-formed piece: a brace-free literal, or a nonempty key over the
token character class. -/
def validPiece : Chars ⊕ Chars → Bool
  | Sum.inl lit => lbFree lit
  | Sum.inr k => !k.isEmpty && k.all isWordDot

/-- Locale environment of the claim's example tree. -/
def leC7 : LocEnv :=
  ⟨[("en", LocaleTree.obj [("a", LocaleTree.obj [("b", LocaleTree.str "Hi")])])], "en", none⟩

/-- Pieces of the hit example. -/
def psHit : List (Chars ⊕ Chars) :=
  [Sum.inl ['<', 'h', '1', '>'], Sum.inr ['a', '.', 'b'], Sum.inl ['<', '/', 'h', '1', '>']]

/-- Pieces of the missing-key example. -/
def psMiss : List (Chars ⊕ Chars) :=
  [Sum.inl ['<', 'h', '1', '>'], Sum.inr ['a', '.', 'c'], Sum.inl ['<', '/', 'h', '1', '>']]

/-- Environment holding the registry obtained by registering key `k`
twice. -/
def envC8W : Env where
  fetchR := fun _ => none
  loc := wLoc
  rootExists := true
  registries := (Register (Register [] "k" (some ⟨1, false, false⟩)).1 "k"
    (some ⟨2, false, false⟩)).1
  scriptLoads := fun _ => true

/-- Request-helper test configuration. -/
def cfgW : ApiCfg := ⟨"https://api", []⟩

/-- Network stub answering every URL with status 200 and payload
`"fresh"`. -/
def respOkFresh : String → Option (Nat × JVal) :=
  fun _ => some (200, JVal.jobj [("data", JVal.jstr "fresh")])

/-- Network stub answering every URL with status 404. -/
def resp404 : String → Option (Nat × JVal) := fun _ => some (404, JVal.jnull)

/-- Store holding a fresh entry with a truthy payload. -/
def stC4W : ApiSt := ⟨[(apiCacheKey ("https://api" ++ "/e"), (JVal.jstr "cached", 0))], []⟩

/-- Store holding a fresh entry whose payload is the falsy empty string. -/
def stC10X : ApiSt := ⟨[(apiCacheKey ("https://api" ++ "/e"), (JVal.jstr "", 0))], []⟩

/-- A response record whose reload closure captured endpoint `/e`. -/
def r0X : ApiResp :=
  { method := "GET", url := "https://api" ++ "/e", data := JVal.jstr "", status := 200,
    reloadEndpoint := "/e", reloadOptions := { useCache := false } }

theorem matchLit_length {lit s r : Chars} (h : matchLit lit s = some r) :
    r.length + lit.length = s.length := by
  induction lit generalizing s with
  | nil =>
    simp only [matchLit, Option.some.injEq] at h
    simp [← h]
  | cons l ls ih =>
    cases s with
    | nil => simp [matchLit] at h
    | cons c cs =>
      simp only [matchLit] at h
      split at h
      · have := ih h
        simp only [List.length_cons]
        omega
      · exact absurd h (by simp)

theorem skipWs_length_le (s : Chars) : (skipWs s).length ≤ s.length := by
  induction s with
  | nil => simp [skipWs]
  | cons c cs ih =>
    simp only [skipWs]
    split
    · simpa using Nat.le_succ_of_le ih
    · simp

theorem takeName_snd_length_le (s : Chars) : (takeName s).2.length ≤ s.length := by
  induction s with
  | nil => simp [takeName]
  | cons c cs ih =>
    simp only [takeName]
    split
    · simp
    · simpa using Nat.le_succ_of_le ih

theorem expectQuote_length {s r : Chars} (h : expectQuote s = some r) :
    r.length + 1 = s.length := by
  match s with
  | [] => exact absurd h (by simp [expectQuote])
  | q :: s1 =>
    simp only [expectQuote] at h
    split at h
    · simp only [Option.some.injEq] at h
      subst h
      exact (List.length_cons _ _).symm
    · exact absurd h (by simp)

theorem takeNamePos_length {s : Chars} {nm r : Chars} (h : takeNamePos s = some (nm, r)) :
    r.length + 1 ≤ s.length ∧ nm ≠ [] := by
  unfold takeNamePos at h
  split at h
  · exact absurd h (by simp)
  next n1 nr rr htn =>
    simp only [Option.some.injEq, Prod.mk.injEq] at h
    obtain ⟨hnm, hr⟩ := h
    subst hr
    have hle := takeName_snd_length_le s
    rw [htn] at hle
    constructor
    · have hfst : (takeName s).1.length + (takeName s).2.length = s.length := by
        clear hle htn hnm
        induction s with
        | nil => simp [takeName]
        | cons c cs ih =>
          simp only [takeName]
          split
          · simp
          · simp only [List.length_cons]
            omega
      rw [htn] at hfst
      simp only [List.length_cons] at hfst
      omega
    · rw [← hnm]
      simp

theorem tryMarker_rest_length_lt {word s : Chars} {nm rest : Chars}
    (h : tryMarker word s = some (nm, rest)) : rest.length < s.length := by
  unfold tryMarker at h
  rw [Option.bind_eq_some] at h
  obtain ⟨s1, h1, h⟩ := h
  rw [Option.bind_eq_some] at h
  obtain ⟨s3, h2, h⟩ := h
  rw [Option.bind_eq_some] at h
  obtain ⟨s4, h3, h⟩ := h
  rw [Option.bind_eq_some] at h
  obtain ⟨nmr, h4, h⟩ := h
  rw [Option.bind_eq_some] at h
  obtain ⟨s6, h5, h⟩ := h
  rw [Option.bind_eq_some] at h
  obtain ⟨s7, h6, h⟩ := h
  rw [Option.bind_eq_some] at h
  obtain ⟨s9, h7, h⟩ := h
  simp only [Option.some.injEq, Prod.mk.injEq] at h
  obtain ⟨-, hrest⟩ := h
  subst hrest
  have l1 : s1.length + 4 = s.length := matchLit_length h1
  have l2 : s3.length + word.length = (skipWs s1).length := matchLit_length h2
  have l2' : s3.length ≤ s1.length := le_trans (by omega) (skipWs_length_le s1)
  have l3 : s4.length + 1 = s3.length := expectQuote_length h3
  have l4 : nmr.2.length + 1 ≤ s4.length := (takeNamePos_length h4).1
  have l5 : s6.length + 1 = nmr.2.length := expectQuote_length h5
  have l6 : s7.length + 1 = s6.length := matchLit_length h6
  have l7 : s9.length + 3 = (skipWs s7).length := matchLit_length h7
  have l7' : s9.length + 3 ≤ s7.length := le_trans (le_of_eq l7) (skipWs_length_le s7)
  omega

theorem scanMarkersAux_nil (word : Chars) (fuel : Nat) :
    scanMarkersAux word fuel [] = [] := by
  cases fuel <;> rfl

theorem scanMarkersAux_fuel (word : Chars) :
    ∀ f1 : Nat, ∀ s : Chars, ∀ f2 : Nat, s.length ≤ f1 → s.length ≤ f2 →
      scanMarkersAux word f1 s = scanMarkersAux word f2 s := by
  intro f1
  induction f1 with
  | zero =>
    intro s f2 h1 h2
    have hs : s = [] := List.eq_nil_of_length_eq_zero (Nat.le_zero.mp h1)
    subst hs
    simp [scanMarkersAux_nil]
  | succ g ih =>
    intro s f2 h1 h2
    cases s with
    | nil => simp [scanMarkersAux_nil]
    | cons c tl =>
      cases f2 with
      | zero => simp at h2
      | succ g2 =>
        simp only [scanMarkersAux]
        cases hm : tryMarker word (c :: tl) with
        | some p =>
          obtain ⟨nm, rest⟩ := p
          have hlt := tryMarker_rest_length_lt hm
          simp only [List.length_cons] at h1 h2 hlt
          simp only [ih rest g2 (by omega) (by omega)]
        | none =>
          simp only [List.length_cons] at h1 h2
          simp only [ih tl g2 (by omega) (by omega)]

theorem scanMarkers_pos {word s nm rest : Chars} (h : tryMarker word s = some (nm, rest)) :
    scanMarkers word s = nm :: scanMarkers word rest := by
  cases s with
  | nil =>
    have : tryMarker word [] = none := rfl
    rw [this] at h
    exact absurd h (by simp)
  | cons c tl =>
    have hlt := tryMarker_rest_length_lt h
    simp only [List.length_cons] at hlt
    unfold scanMarkers
    simp only [List.length_cons, scanMarkersAux, h]
    rw [scanMarkersAux_fuel word tl.length rest rest.length (by omega) (by omega)]

theorem scanMarkers_skip {word : Chars} {c : Char} {tl : Chars}
    (h : tryMarker word (c :: tl) = none) :
    scanMarkers word (c :: tl) = scanMarkers word tl := by
  unfold scanMarkers
  simp only [List.length_cons, scanMarkersAux, h]

/-! ### Localization resolver (`src/logger.ts` locale part) -/

theorem takeKey_snd_length_le (s : Chars) : (takeKey s).2.length ≤ s.length := by
  induction s with
  | nil => simp [takeKey]
  | cons c cs ih =>
    simp only [takeKey]
    split
    · simpa using Nat.le_succ_of_le ih
    · simp

theorem skipWs_length_le' {s r : Chars} (h : skipWs s = r) : r.length ≤ s.length := by
  subst h; exact skipWs_length_le s

theorem expectCh_length {b : Char} {s r : Chars} (h : expectCh b s = some r) :
    r.length + 1 = s.length := by
  match s with
  | [] => exact absurd h (by simp [expectCh])
  | c :: s1 =>
    simp only [expectCh] at h
    split at h
    · simp only [Option.some.injEq] at h
      subst h
      exact (List.length_cons _ _).symm
    · exact absurd h (by simp)

theorem takeKeyPos_length {s : Chars} {k r : Chars} (h : takeKeyPos s = some (k, r)) :
    r.length + 1 ≤ s.length ∧ k ≠ [] := by
  unfold takeKeyPos at h
  split at h
  · exact absurd h (by simp)
  next k1 ks rr htn =>
    simp only [Option.some.injEq, Prod.mk.injEq] at h
    obtain ⟨hk, hr⟩ := h
    subst hr
    constructor
    · have hfst : (takeKey s).1.length + (takeKey s).2.length = s.length := by
        clear htn hk
        induction s with
        | nil => simp [takeKey]
        | cons c cs ih =>
          simp only [takeKey]
          split
          · simp only [List.length_cons]
            omega
          · simp
      rw [htn] at hfst
      simp only [List.length_cons] at hfst
      omega
    · rw [← hk]
      simp

theorem tryLocToken_rest_length_lt {s key rest : Chars}
    (h : tryLocToken s = some (key, rest)) : rest.length < s.length := by
  unfold tryLocToken at h
  rw [Option.bind_eq_some] at h
  obtain ⟨s1, h1, h⟩ := h
  rw [Option.bind_eq_some] at h
  obtain ⟨s2, h2, h⟩ := h
  rw [Option.bind_eq_some] at h
  obtain ⟨s4, h3, h⟩ := h
  rw [Option.bind_eq_some] at h
  obtain ⟨kr, h4, h⟩ := h
  rw [Option.bind_eq_some] at h
  obtain ⟨s5, h5, h⟩ := h
  rw [Option.bind_eq_some] at h
  obtain ⟨s6, h6, h⟩ := h
  simp only [Option.some.injEq, Prod.mk.injEq] at h
  obtain ⟨-, hrest⟩ := h
  subst hrest
  have l1 : s1.length + 1 = s.length := expectCh_length h1
  have l2 : s2.length + 1 = s1.length := expectCh_length h2
  have l3 : s4.length + 7 = (skipWs s2).length := matchLit_length h3
  have l3' : s4.length ≤ s2.length := le_trans (by omega) (skipWs_length_le s2)
  have l4 : kr.2.length + 1 ≤ s4.length := (takeKeyPos_length h4).1
  have l5 : s5.length + 1 = (skipWs kr.2).length := expectCh_length h5
  have l5' : s5.length + 1 ≤ kr.2.length := le_trans (le_of_eq l5) (skipWs_length_le kr.2)
  have l6 : s6.length + 1 = s5.length := expectCh_length h6
  omega

theorem applyTranslationsAux_nil (le : LocEnv) (fuel : Nat) :
    applyTranslationsAux le fuel [] = ([], []) := by
  cases fuel <;> rfl

theorem applyTranslationsAux_fuel (le : LocEnv) :
    ∀ f1 : Nat, ∀ s : Chars, ∀ f2 : Nat, s.length ≤ f1 → s.length ≤ f2 →
      applyTranslationsAux le f1 s = applyTranslationsAux le f2 s := by
  intro f1
  induction f1 with
  | zero =>
    intro s f2 h1 h2
    have hs : s = [] := List.eq_nil_of_length_eq_zero (Nat.le_zero.mp h1)
    subst hs
    simp [applyTranslationsAux_nil]
  | succ g ih =>
    intro s f2 h1 h2
    cases s with
    | nil => simp [applyTranslationsAux_nil]
    | cons c tl =>
      cases f2 with
      | zero => simp at h2
      | succ g2 =>
        simp only [applyTranslationsAux]
        cases hm : tryLocToken (c :: tl) with
        | some p =>
          obtain ⟨key, rest⟩ := p
          have hlt := tryLocToken_rest_length_lt hm
          simp only [List.length_cons] at h1 h2 hlt
          simp only [ih rest g2 (by omega) (by omega)]
        | none =>
          simp only [List.length_cons] at h1 h2
          simp only [ih tl g2 (by omega) (by omega)]

theorem applyTranslations_nil (le : LocEnv) : applyTranslations le [] = ([], []) := rfl

theorem applyTranslations_tok {s key rest : Chars} (le : LocEnv)
    (h : tryLocToken s = some (key, rest)) :
    applyTranslations le s =
      (match getNestedValue (useLocale le) key with
       | some v => (v.data ++ (applyTranslations le rest).1, (applyTranslations le rest).2)
       | none =>
         (['l', 'o', 'c', 'a', 'l', 'e', '.'] ++ key ++ (applyTranslations le rest).1,
          key :: (applyTranslations le rest).2)) := by
  cases s with
  | nil =>
    have hn : tryLocToken [] = none := rfl
    rw [hn] at h
    exact absurd h (by simp)
  | cons c tl =>
    have hlt := tryLocToken_rest_length_lt h
    simp only [List.length_cons] at hlt
    unfold applyTranslations
    simp only [List.length_cons, applyTranslationsAux, h]
    rw [applyTranslationsAux_fuel le tl.length rest rest.length (by omega) (by omega)]

theorem applyTranslations_skip {c : Char} {tl : Chars} (le : LocEnv)
    (h : tryLocToken (c :: tl) = none) :
    applyTranslations le (c :: tl) =
      ((c :: (applyTranslations le tl).1), (applyTranslations le tl).2) := by
  unfold applyTranslations
  simp only [List.length_cons, applyTranslationsAux, h]

/-! ### Effects of the framework

A load operation reads and writes `sessionStorage`, appends script tags,
touches the DOM and the console, and can (a) complete, (b) throw — caught
at the top level — or (c) stall forever awaiting a script promise that
never settles.  The observable actions are recorded as an event trace. -/

theorem mkMarker_length (word nm : Chars) :
    (mkMarker word nm).length = word.length + nm.length + 12 := by
  simp only [mkMarker, List.length_append, List.length_cons, List.length_nil]
  omega

theorem ltFree_append {p r : Chars} :
    ltFree (p ++ r) = (ltFree p && ltFree r) := by
  simp [ltFree, List.all_append]

theorem ltFree_drop {s : Chars} (n : Nat) (h : ltFree s = true) : ltFree (s.drop n) = true := by
  simp only [ltFree, List.all_eq_true] at h ⊢
  exact fun c hc => h c (List.drop_subset n s hc)

theorem tryMarker_none_of_head {word : Chars} {c : Char} {cs : Chars} (h : (c = '<') = False) :
    tryMarker word (c :: cs) = none := by
  unfold tryMarker
  simp [matchLit, h]

theorem tryMarker_nil (word : Chars) : tryMarker word [] = none := rfl

theorem findMarker_ltFree {word s : Chars} (h : ltFree s = true) :
    findMarker word s = none := by
  induction s with
  | nil => rfl
  | cons c cs ih =>
    simp only [ltFree, List.all_cons, Bool.and_eq_true, bne_iff_ne, ne_eq] at h
    have hc : (c = '<') = False := eq_false h.1
    have hcs : ltFree cs = true := by simp only [ltFree]; exact h.2
    simp only [findMarker, tryMarker_none_of_head hc, ih hcs]

theorem findMarker_cons_skip {word : Chars} {c : Char} {cs : Chars}
    (h : (c = '<') = False) :
    findMarker word (c :: cs) =
      (findMarker word cs).map (fun x => (x.1 + 1, x.2.1, x.2.2)) := by
  simp only [findMarker, tryMarker_none_of_head h]
  cases findMarker word cs with
  | none => rfl
  | some x => rfl

theorem findMarker_append_ltFree {word : Chars} {p : Chars} (r : Chars)
    (h : ltFree p = true) :
    findMarker word (p ++ r) =
      (findMarker word r).map (fun x => (x.1 + p.length, x.2.1, x.2.2)) := by
  induction p with
  | nil =>
    simp only [List.nil_append, List.length_nil]
    cases findMarker word r with
    | none => rfl
    | some x => simp
  | cons c cs ih =>
    simp only [ltFree, List.all_cons, Bool.and_eq_true, bne_iff_ne, ne_eq] at h
    have hc : (c = '<') = False := eq_false h.1
    have hcs : ltFree cs = true := by simp only [ltFree]; exact h.2
    rw [List.cons_append, findMarker_cons_skip hc, ih hcs]
    cases findMarker word r with
    | none => rfl
    | some x =>
      simp only [Option.map_some', Option.map_some, Option.some.injEq, List.length_cons, Prod.mk.injEq,
        eq_self_iff_true, true_and, and_true]
      omega

theorem matchLit_self_append (l r : Chars) : matchLit l (l ++ r) = some r := by
  induction l with
  | nil => rfl
  | cons c cs ih => simp [matchLit, ih]

theorem skipWs_space (r : Chars) : skipWs (' ' :: r) = skipWs r := by
  simp [skipWs, isWs]

theorem skipWs_not_ws {c : Char} {cs : Chars} (h : isWs c = false) : skipWs (c :: cs) = c :: cs := by
  simp [skipWs, h]

theorem skipWs_include (r : Chars) : skipWs (includeWord ++ r) = includeWord ++ r := by
  show skipWs ('i' :: (['n', 'c', 'l', 'u', 'd', 'e', '('] ++ r)) =
    'i' :: (['n', 'c', 'l', 'u', 'd', 'e', '('] ++ r)
  exact skipWs_not_ws (by decide)

theorem skipWs_dashes (r : Chars) :
    skipWs (' ' :: (['-', '-', '>'] ++ r)) = ['-', '-', '>'] ++ r := by
  rw [skipWs_space]
  exact skipWs_not_ws (by decide)

theorem isQuote_qCh : isQuote qCh = true := by decide

theorem takeName_stop {nm r : Chars} {q : Char}
    (hnm : nm.all (fun c => !(isQuote c)) = true) (hq : isQuote q = true) :
    takeName (nm ++ q :: r) = (nm, q :: r) := by
  induction nm with
  | nil => simp [takeName, hq]
  | cons c cs ih =>
    simp only [List.all_cons, Bool.and_eq_true, Bool.not_eq_true'] at hnm
    simp [takeName, hnm.1, ih hnm.2]

/-- A well-formed include marker followed by arbitrary text is matched
exactly, capturing the name. -/
theorem tryMarker_include_mk (nm rest : Chars) (hnm : nm ≠ [])
    (hq : nm.all (fun c => !(isQuote c)) = true) :
    tryMarker includeWord (mkMarker includeWord nm ++ rest) = some (nm, rest) := by
  obtain ⟨n1, nrest, hn⟩ := List.exists_cons_of_ne_nil hnm
  subst hn
  have hshape : mkMarker includeWord (n1 :: nrest) ++ rest =
      ['<', '!', '-', '-'] ++ (' ' :: (includeWord ++ (qCh :: ((n1 :: nrest) ++
        (qCh :: ([')'] ++ (' ' :: (['-', '-', '>'] ++ rest)))))))) := by
    simp [mkMarker, includeWord]
  rw [hshape]
  unfold tryMarker
  rw [matchLit_self_append, Option.some_bind, skipWs_space, skipWs_include,
    matchLit_self_append, Option.some_bind]
  simp only [expectQuote, isQuote_qCh, if_true, Option.some_bind]
  rw [show (n1 :: nrest) ++ (qCh :: ([')'] ++ (' ' :: (['-', '-', '>'] ++ rest)))) =
    (n1 :: nrest) ++ qCh :: ([')'] ++ (' ' :: (['-', '-', '>'] ++ rest))) from rfl]
  simp only [takeNamePos, takeName_stop hq isQuote_qCh, Option.some_bind]
  simp only [expectQuote, isQuote_qCh, if_true, Option.some_bind]
  rw [matchLit_self_append, Option.some_bind, skipWs_dashes, matchLit_self_append,
    Option.some_bind]

theorem findMarker_include_at {pre nm rest : Chars} (hpre : ltFree pre = true)
    (hnm : nm ≠ []) (hq : nm.all (fun c => !(isQuote c)) = true) :
    findMarker includeWord (pre ++ (mkMarker includeWord nm ++ rest)) =
      some (pre.length, nm, nm.length + 20) := by
  rw [findMarker_append_ltFree _ hpre]
  have hcons : mkMarker includeWord nm ++ rest =
      '<' :: ('!' :: ('-' :: ('-' :: (' ' :: (includeWord ++ (qCh :: (nm ++ (qCh ::
        (')' :: (' ' :: ('-' :: ('-' :: ('>' :: rest))))))))))))) := by
    simp [mkMarker]
  rw [hcons]
  simp only [findMarker, ← hcons, tryMarker_include_mk nm rest hnm hq]
  simp only [Option.map_some', Option.map_some, Option.some.injEq, Prod.mk.injEq, Nat.zero_add,
    List.length_append, mkMarker_length, includeWord, List.length_cons, List.length_nil,
    true_and, and_true, eq_self_iff_true]
  omega

theorem pfx_self_append (pat r : Chars) : pfx pat (pat ++ r) = true := by
  induction pat with
  | nil => rfl
  | cons c cs ih => simp [pfx, ih]

theorem pfx_false_of_head {pt : Chars} {c : Char} {cs : Chars} (h : c ≠ '<') :
    pfx ('<' :: pt) (c :: cs) = false := by
  have hf : (('<' : Char) = c) = False := eq_false (fun he => h he.symm)
  simp [pfx, hf]

theorem getSubstitution_dollarFree {m b a r : Chars} (h : dollarFree r = true) :
    getSubstitution m b a r = r := by
  induction r with
  | nil => rfl
  | cons c tl ih =>
    simp only [dollarFree, List.all_cons, Bool.and_eq_true, bne_iff_ne, ne_eq] at h
    cases tl with
    | nil => rfl
    | cons d tl2 =>
      have h2 : dollarFree (d :: tl2) = true := h.2
      show (if c = dollarCh then _ else c :: getSubstitution m b a (d :: tl2)) = _
      rw [if_neg h.1, ih h2]

theorem replaceFirst_here {s pat repl : Chars} (h : pfx pat s = true) (hne : pat ≠ [])
    (hd : dollarFree repl = true) :
    replaceFirst s pat repl = repl ++ s.drop pat.length := by
  cases s with
  | nil =>
    cases pat with
    | nil => exact absurd rfl hne
    | cons p ps => simp [pfx] at h
  | cons c cs => simp [replaceFirst, splitFirst, h, getSubstitution_dollarFree hd]

theorem replaceFirst_skip {c : Char} {cs pat repl : Chars} (h : pfx pat (c :: cs) = false)
    (hd : dollarFree repl = true) :
    replaceFirst (c :: cs) pat repl = c :: replaceFirst cs pat repl := by
  unfold replaceFirst
  simp only [splitFirst, h, Bool.false_eq_true, if_false]
  cases hs : splitFirst pat cs with
  | none => rfl
  | some pp =>
    obtain ⟨pre, post⟩ := pp
    simp [getSubstitution_dollarFree hd]

theorem replaceFirst_ltFree_append {pre r pt repl : Chars} (h : ltFree pre = true)
    (hd : dollarFree repl = true) :
    replaceFirst (pre ++ r) ('<' :: pt) repl = pre ++ replaceFirst r ('<' :: pt) repl := by
  induction pre with
  | nil => simp
  | cons c cs ih =>
    simp only [ltFree, List.all_cons, Bool.and_eq_true, bne_iff_ne, ne_eq] at h
    rw [List.cons_append, replaceFirst_skip (pfx_false_of_head h.1) hd,
      ih (by simp only [ltFree]; exact h.2), List.cons_append]

/-- The head-exposed shape of an include marker. -/
theorem mkMarker_include_cons (nm : Chars) :
    mkMarker includeWord nm =
      '<' :: ('!' :: ('-' :: ('-' :: (' ' :: (includeWord ++ (qCh :: (nm ++ (qCh ::
        (')' :: (' ' :: ('-' :: ('-' :: ('>' :: ([] : Chars)))))))))))))) := by
  simp [mkMarker]

theorem replaceFirst_marker {pre nm rest repl : Chars} (hpre : ltFree pre = true)
    (hd : dollarFree repl = true) :
    replaceFirst (pre ++ (mkMarker includeWord nm ++ rest)) (mkMarker includeWord nm) repl =
      pre ++ (repl ++ rest) := by
  have hhd := mkMarker_include_cons nm
  calc replaceFirst (pre ++ (mkMarker includeWord nm ++ rest)) (mkMarker includeWord nm) repl
      = pre ++ replaceFirst (mkMarker includeWord nm ++ rest) (mkMarker includeWord nm) repl := by
        conv_lhs => rw [hhd]
        rw [replaceFirst_ltFree_append hpre hd, ← hhd]
    _ = pre ++ (repl ++ rest) := by
        rw [replaceFirst_here (pfx_self_append _ _) (by simp [mkMarker]) hd, List.drop_left]

theorem scanMarkers_ltFree {word s : Chars} (h : ltFree s = true) :
    scanMarkers word s = [] := by
  induction s with
  | nil => rfl
  | cons c cs ih =>
    simp only [ltFree, List.all_cons, Bool.and_eq_true, bne_iff_ne, ne_eq] at h
    rw [scanMarkers_skip (tryMarker_none_of_head (eq_false h.1)),
      ih (by simp only [ltFree]; exact h.2)]

theorem lookupA_setA_self {α : Type} (l : List (String × α)) (k : String) (v : α) :
    lookupA (setA l k v) k = some v := by
  induction l with
  | nil => simp [setA, lookupA]
  | cons p rest ih =>
    obtain ⟨k1, v1⟩ := p
    by_cases hk : k1 = k
    · subst hk
      simp [setA, lookupA]
    · simp [setA, lookupA, hk, ih]

theorem lookupA_setA_ne {α : Type} (l : List (String × α)) {k k' : String} (v : α)
    (h : k ≠ k') : lookupA (setA l k v) k' = lookupA l k' := by
  induction l with
  | nil => simp [setA, lookupA, h]
  | cons p rest ih =>
    obtain ⟨k1, v1⟩ := p
    by_cases hk : k1 = k
    · subst hk
      simp [setA, lookupA, h]
    · simp only [setA, if_neg hk, lookupA]
      by_cases hk' : k1 = k'
      · simp [hk']
      · simp [hk', ih]

theorem String_mk_inj {a b : Chars} (h : String.mk a = String.mk b) : a = b := by
  exact congrArg String.data h

theorem append_str_inj {p a b : String} (h : p ++ a = p ++ b) : a = b := by
  have hd := congrArg String.data h
  simp only [String.data_append] at hd
  have := List.append_cancel_left hd
  cases a
  cases b
  simp only at this
  rw [this]

theorem cachedViewKey_ne {p q : String} (h : p ≠ q) : cachedViewKey p ≠ cachedViewKey q := by
  intro he
  apply h
  unfold cachedViewKey at he
  have hd := congrArg String.data he
  simp only [String.data_append] at hd
  have h2 := List.append_cancel_right hd
  have h3 := List.append_cancel_left h2
  cases p
  cases q
  simp only at h3
  rw [h3]

theorem pages_path_ne_includes (a b : String) :
    ("pages/" ++ a) ≠ ("includes/" ++ b) := by
  intro h
  have hd := congrArg String.data h
  simp only [String.data_append] at hd
  simp only [List.cons_append, List.cons.injEq] at hd
  exact absurd hd.1 (by decide)

/-! ### Running the load pipeline symbolically -/

theorem bind_apply {α β : Type} (x : M α) (f : α → M β) (s : St) :
    (x >>= f) s =
      match x s with
      | (Outcome.ok a, s1) => f a s1
      | (Outcome.err m, s1) => (Outcome.err m, s1)
      | (Outcome.hang, s1) => (Outcome.hang, s1) := rfl

theorem pure_apply {α : Type} (a : α) (s : St) : (pure a : M α) s = (Outcome.ok a, s) := rfl

theorem fetchWithCache_hit {env : Env} {path : String} {st : St} {t : Chars}
    (h : lookupA st.storage (cachedViewKey path) = some t) (hne : t ≠ []) :
    fetchWithCache env path st = (Outcome.ok t, st) := by
  unfold fetchWithCache getStore
  simp only [bind_apply, h, hne, if_true, pure_apply, M.pure, ne_eq, not_false_iff, if_pos]

theorem fetchWithCache_miss {env : Env} {path : String} {st : St} {t : Chars}
    (hmiss : lookupA st.storage (cachedViewKey path) = none)
    (hf : env.fetchR path = some t) :
    fetchWithCache env path st =
      (Outcome.ok t, { st with storage := setA st.storage (cachedViewKey path) t,
                               events := st.events ++ [Ev.netFetch path] }) := by
  unfold fetchWithCache getStore fetchNetwork emit setStore
  simp only [bind_apply, hmiss, hf, pure_apply, M.pure]

theorem fetchWithCache_fail {env : Env} {path : String} {st : St}
    (hmiss : lookupA st.storage (cachedViewKey path) = none)
    (hf : env.fetchR path = none) :
    fetchWithCache env path st =
      (Outcome.err "fetch failed", { st with events := st.events ++ [Ev.netFetch path] }) := by
  unfold fetchWithCache getStore fetchNetwork emit M.throw
  simp only [bind_apply, hmiss, hf, pure_apply, M.pure]

theorem translateM_apply (env : Env) (s : Chars) (st : St) :
    translateM env s st =
      (Outcome.ok (applyTranslations env.loc s).1,
       { st with events := st.events ++ warnEvents env.loc s }) := rfl

theorem LoadScripts_noMarkers {env : Env} {content : Chars} {basePath : String} {st : St}
    (h : scanMarkers scriptWord content = []) :
    LoadScripts env content basePath st = (Outcome.ok (), st) := by
  unfold LoadScripts appendScripts
  simp only [h, bind_apply, pure_apply, M.pure, List.all_nil, if_true]

theorem Execute_run {env : Env} {key : String} {e : RegEntry} {st : St}
    (h : lookupA env.registries key = some e) (hth : e.throws = false) :
    Execute env key st = (Outcome.ok (), { st with events := st.events ++ [Ev.execCb key e.id] }) := by
  unfold Execute
  rw [h]
  simp [hth]

theorem Execute_missing {env : Env} {key : String} {st : St}
    (h : lookupA env.registries key = none) :
    Execute env key st =
      (Outcome.ok (),
       { st with events := st.events ++ [Ev.warn "Execute" ("No function found for \"" ++ key ++ "\"")] }) := by
  unfold Execute
  rw [h]

theorem execRegistered_run {env : Env} {key : String} {e : RegEntry} {st : St}
    (h : lookupA env.registries key = some e) (hth : e.throws = false) :
    execRegistered env key st =
      (Outcome.ok (), { st with events := st.events ++ [Ev.execCb key e.id] }) := by
  unfold execRegistered
  rw [h]
  exact Execute_run h hth

theorem mkInclude_length (nm : Chars) :
    (mkMarker includeWord nm).length = nm.length + 20 := by
  rw [mkMarker_length]
  simp only [includeWord, List.length_cons, List.length_nil]
  omega

theorem take_mkInclude (nm r : Chars) :
    (mkMarker includeWord nm ++ r).take (nm.length + 20) = mkMarker includeWord nm := by
  rw [← mkInclude_length nm, List.take_left]

theorem includes_path_inj {a b : String}
    (h : ("includes/" ++ a ++ "/index.html") = ("includes/" ++ b ++ "/index.html")) : a = b := by
  have hd := congrArg String.data h
  simp only [String.data_append] at hd
  have h2 := List.append_cancel_right hd
  have h3 := List.append_cancel_left h2
  cases a
  cases b
  simp only at h3
  rw [h3]

theorem includeLoop_none {env : Env} {fuel : Nat} {html : Chars} {lastIdx : Nat}
    {incs : List String} (h : findMarker includeWord (html.drop lastIdx) = none) :
    includeLoop env (fuel + 1) html lastIdx incs = M.pure (html, incs) := by
  unfold includeLoop
  simp only [h]

theorem includeLoop_found {env : Env} {fuel : Nat} {html : Chars} {lastIdx : Nat}
    {incs : List String} {rel : Nat} {nm : Chars} {len : Nat}
    (h : findMarker includeWord (html.drop lastIdx) = some (rel, nm, len)) :
    includeLoop env (fuel + 1) html lastIdx incs = (do
      let fetched ← fetchWithCache env ("includes/" ++ String.mk nm ++ "/index.html")
      let includeContent ← translateM env fetched
      LoadScripts env includeContent ("includes/" ++ String.mk nm)
      includeLoop env fuel (replaceFirst html ((html.drop (lastIdx + rel)).take len) includeContent)
        (lastIdx + rel + len) (incs ++ ["includes/" ++ String.mk nm])) := by
  conv_lhs => unfold includeLoop
  rw [h]

/-- One successful iteration of the inclusion loop: the scan from the
resume position finds the next well-formed marker after `<`-free
separation `D`, fetches and translates the include (a cache miss), loads
its (absent) scripts, substitutes the first occurrence of the marker text
and resumes after the end position of the match. -/
theorem includeLoop_step {env : Env} {fuel : Nat} {st : St} {html1 : Chars} {lastIdx : Nat}
    {incs : List String} {D nm rest cN rawN : Chars}
    (hdecomp : html1.drop lastIdx = D ++ (mkMarker includeWord nm ++ rest))
    (hD : ltFree D = true) (hnm : nm ≠ []) (hq : nm.all (fun c => !(isQuote c)) = true)
    (hs : lookupA st.storage (cachedViewKey ("includes/" ++ String.mk nm ++ "/index.html")) = none)
    (hf : env.fetchR ("includes/" ++ String.mk nm ++ "/index.html") = some rawN)
    (htr : (applyTranslations env.loc rawN).1 = cN)
    (hscan : scanMarkers scriptWord cN = []) :
    includeLoop env (fuel + 1) html1 lastIdx incs st =
      includeLoop env fuel (replaceFirst html1 (mkMarker includeWord nm) cN)
        (lastIdx + D.length + (nm.length + 20)) (incs ++ ["includes/" ++ String.mk nm])
        { st with
            storage := setA st.storage
              (cachedViewKey ("includes/" ++ String.mk nm ++ "/index.html")) rawN,
            events := st.events ++
              [Ev.netFetch ("includes/" ++ String.mk nm ++ "/index.html")] ++
              warnEvents env.loc rawN } := by
  have hfind : findMarker includeWord (html1.drop lastIdx) =
      some (D.length, nm, nm.length + 20) := by
    rw [hdecomp]
    exact findMarker_include_at hD hnm hq
  have hmatched : (html1.drop (lastIdx + D.length)).take (nm.length + 20) =
      mkMarker includeWord nm := by
    rw [← List.drop_drop, hdecomp, List.drop_left, take_mkInclude]
  rw [includeLoop_found hfind, hmatched]
  simp only [bind_apply, fetchWithCache_miss hs hf, translateM_apply, htr,
    LoadScripts_noMarkers hscan]

/-- Full run of inclusion resolution on a fragment with two well-formed
markers separated and surrounded by `<`-free text, where the first
include's translated content is `<`-free and at least as long as its
marker: both markers are resolved, left to right. -/
theorem LoadIncludes_two {env : Env} {fuel : Nat} {st : St}
    {nmA nmB pre mid post cA cB rawA rawB : Chars}
    (hnmA : nmA ≠ []) (hqA : nmA.all (fun c => !(isQuote c)) = true)
    (hnmB : nmB ≠ []) (hqB : nmB.all (fun c => !(isQuote c)) = true)
    (hAB : String.mk nmA ≠ String.mk nmB)
    (hpre : ltFree pre = true) (hmid : ltFree mid = true) (hpost : ltFree post = true)
    (hcA : ltFree cA = true) (hcB : ltFree cB = true)
    (hcAlen : nmA.length + 20 ≤ cA.length)
    (hdA : dollarFree cA = true) (hdB : dollarFree cB = true)
    (hsA : lookupA st.storage (cachedViewKey ("includes/" ++ String.mk nmA ++ "/index.html")) = none)
    (hsB : lookupA st.storage (cachedViewKey ("includes/" ++ String.mk nmB ++ "/index.html")) = none)
    (hAfetch : env.fetchR ("includes/" ++ String.mk nmA ++ "/index.html") = some rawA)
    (hBfetch : env.fetchR ("includes/" ++ String.mk nmB ++ "/index.html") = some rawB)
    (hAtr : (applyTranslations env.loc rawA).1 = cA)
    (hBtr : (applyTranslations env.loc rawB).1 = cB) :
    LoadIncludes env (fuel + 3)
      (pre ++ (mkMarker includeWord nmA ++ (mid ++ (mkMarker includeWord nmB ++ post)))) st =
      (Outcome.ok ((pre ++ (cA ++ mid)) ++ (cB ++ post),
        ["includes/" ++ String.mk nmA, "includes/" ++ String.mk nmB]),
       { st with
           storage := setA
             (setA st.storage (cachedViewKey ("includes/" ++ String.mk nmA ++ "/index.html")) rawA)
             (cachedViewKey ("includes/" ++ String.mk nmB ++ "/index.html")) rawB,
           events := st.events ++
             [Ev.netFetch ("includes/" ++ String.mk nmA ++ "/index.html")] ++
             warnEvents env.loc rawA ++
             [Ev.netFetch ("includes/" ++ String.mk nmB ++ "/index.html")] ++
             warnEvents env.loc rawB }) := by
  have hkAB : cachedViewKey ("includes/" ++ String.mk nmA ++ "/index.html") ≠
      cachedViewKey ("includes/" ++ String.mk nmB ++ "/index.html") := by
    apply cachedViewKey_ne
    intro he
    exact hAB (includes_path_inj he)
  unfold LoadIncludes
  -- iteration 1
  have hdec1 : (pre ++ (mkMarker includeWord nmA ++
      (mid ++ (mkMarker includeWord nmB ++ post)))).drop 0 =
      pre ++ (mkMarker includeWord nmA ++ (mid ++ (mkMarker includeWord nmB ++ post))) := by
    rw [List.drop_zero]
  rw [show fuel + 3 = (fuel + 2) + 1 from rfl,
    includeLoop_step hdec1 hpre hnmA hqA hsA hAfetch hAtr (scanMarkers_ltFree hcA)]
  rw [replaceFirst_marker hpre hdA]
  -- iteration 2
  have hdecomp2 :
      (pre ++ (cA ++ (mid ++ (mkMarker includeWord nmB ++ post)))).drop
          (0 + pre.length + (nmA.length + 20)) =
        ((cA.drop (nmA.length + 20)) ++ mid) ++ (mkMarker includeWord nmB ++ post) := by
    rw [Nat.zero_add, ← List.drop_drop, List.drop_left,
      List.drop_append_of_le_length hcAlen, List.append_assoc]
  rw [includeLoop_step (D := (cA.drop (nmA.length + 20)) ++ mid) hdecomp2
      (by rw [ltFree_append, ltFree_drop _ hcA, hmid]; rfl) hnmB hqB
      (by
        show lookupA
            (setA st.storage (cachedViewKey ("includes/" ++ String.mk nmA ++ "/index.html")) rawA)
            (cachedViewKey ("includes/" ++ String.mk nmB ++ "/index.html")) = none
        rw [lookupA_setA_ne _ _ hkAB]
        exact hsB) hBfetch hBtr (scanMarkers_ltFree hcB)]
  have hassoc : pre ++ (cA ++ (mid ++ (mkMarker includeWord nmB ++ post))) =
      (pre ++ (cA ++ mid)) ++ (mkMarker includeWord nmB ++ post) := by
    simp [List.append_assoc]
  rw [hassoc, replaceFirst_marker (by
    rw [ltFree_append, hpre, ltFree_append, hcA, hmid]; rfl) hdB]
  -- iteration 3: nothing found past the resume position
  have hidx2 : 0 + pre.length + (nmA.length + 20) + ((cA.drop (nmA.length + 20)) ++ mid).length +
      (nmB.length + 20) = ((pre ++ (cA ++ mid)) ++ []).length + (nmB.length + 20) := by
    simp only [List.length_append, List.length_drop, List.length_nil]
    omega
  rw [includeLoop_none (by
    rw [hidx2, List.append_nil, List.drop_append]
    exact findMarker_ltFree (by
      have := ltFree_drop (nmB.length + 20) (show ltFree (cB ++ post) = true by
        rw [ltFree_append, hcB, hpost]; rfl)
      exact this))]
  simp only [M.pure, List.nil_append, List.cons_append, List.singleton_append]

theorem filter_isExec_warnEvents (le : LocEnv) (s : Chars) :
    (warnEvents le s).filter isExecEv = [] := by
  unfold warnEvents
  induction (applyTranslations le s).2 with
  | nil => rfl
  | cons k ks ih => simp [List.filter, isExecEv, ih]

theorem pagesKey_ne_includesKey (a b : String) :
    cachedViewKey ("pages/" ++ a ++ "/index.html") ≠
      cachedViewKey ("includes/" ++ b ++ "/index.html") := by
  apply cachedViewKey_ne
  intro h
  have hd := congrArg String.data h
  simp only [String.data_append] at hd
  simp only [List.cons_append, List.cons.injEq] at hd
  exact absurd hd.1 (by decide)

theorem emit_apply (e : Ev) (st : St) :
    emit e st = (Outcome.ok (), { st with events := st.events ++ [e] }) := rfl

theorem SetCurrentPage_root {env : Env} {pageName : String} {st : St}
    (h : env.rootExists = true) :
    SetCurrentPage env pageName st =
      (Outcome.ok (), { st with events := st.events ++ [Ev.setPage pageName] }) := by
  unfold SetCurrentPage
  rw [h]
  simp

/-- Claim C1, amended: on a page fragment holding two include markers for
distinct names, in `<`-free surrounding text, where each marker's
translated include content is `<`-free and `$`-free (so the string
replacement is spliced literally, not re-expanded by `GetSubstitution`)
and the first is at least as long as its marker, `LoadPage` dispatches
the page callback first and then the two inclusion callbacks in
left-to-right document order. -/
theorem LoadPage_two_includes_dispatch_order {env : Env} {fuel : Nat} {st : St}
    {pageNm : String} {nmA nmB pre mid post cA cB rawA rawB rawPage : Chars}
    {eP eA eB : RegEntry}
    (hnmA : nmA ≠ []) (hqA : nmA.all (fun c => !(isQuote c)) = true)
    (hnmB : nmB ≠ []) (hqB : nmB.all (fun c => !(isQuote c)) = true)
    (hAB : String.mk nmA ≠ String.mk nmB)
    (hpre : ltFree pre = true) (hmid : ltFree mid = true) (hpost : ltFree post = true)
    (hcA : ltFree cA = true) (hcB : ltFree cB = true)
    (hcAlen : nmA.length + 20 ≤ cA.length)
    (hdA : dollarFree cA = true) (hdB : dollarFree cB = true)
    (hsP : lookupA st.storage (cachedViewKey ("pages/" ++ pageNm ++ "/index.html")) = none)
    (hsA : lookupA st.storage (cachedViewKey ("includes/" ++ String.mk nmA ++ "/index.html")) = none)
    (hsB : lookupA st.storage (cachedViewKey ("includes/" ++ String.mk nmB ++ "/index.html")) = none)
    (hPfetch : env.fetchR ("pages/" ++ pageNm ++ "/index.html") = some rawPage)
    (hAfetch : env.fetchR ("includes/" ++ String.mk nmA ++ "/index.html") = some rawA)
    (hBfetch : env.fetchR ("includes/" ++ String.mk nmB ++ "/index.html") = some rawB)
    (hPtr : (applyTranslations env.loc rawPage).1 =
      pre ++ (mkMarker includeWord nmA ++ (mid ++ (mkMarker includeWord nmB ++ post))))
    (hAtr : (applyTranslations env.loc rawA).1 = cA)
    (hBtr : (applyTranslations env.loc rawB).1 = cB)
    (hroot : env.rootExists = true)
    (hrP : lookupA env.registries ("pages/" ++ pageNm) = some eP) (hthP : eP.throws = false)
    (hrA : lookupA env.registries ("includes/" ++ String.mk nmA) = some eA)
    (hthA : eA.throws = false)
    (hrB : lookupA env.registries ("includes/" ++ String.mk nmB) = some eB)
    (hthB : eB.throws = false) :
    (LoadPage env (fuel + 3) pageNm st).1 = Outcome.ok () ∧
    (LoadPage env (fuel + 3) pageNm st).2.events.filter isExecEv =
      st.events.filter isExecEv ++
        [Ev.execCb ("pages/" ++ pageNm) eP.id,
         Ev.execCb ("includes/" ++ String.mk nmA) eA.id,
         Ev.execCb ("includes/" ++ String.mk nmB) eB.id] := by
  have hkPA := pagesKey_ne_includesKey pageNm (String.mk nmA)
  have hkPB := pagesKey_ne_includesKey pageNm (String.mk nmB)
  have hinc := @LoadIncludes_two env fuel
    { st with
      storage := setA st.storage (cachedViewKey ("pages/" ++ pageNm ++ "/index.html")) rawPage,
      events := st.events ++ [Ev.netFetch ("pages/" ++ pageNm ++ "/index.html")] ++
        warnEvents env.loc rawPage }
    nmA nmB pre mid post cA cB rawA rawB
    hnmA hqA hnmB hqB hAB hpre hmid hpost hcA hcB hcAlen hdA hdB
    (by
      show lookupA (setA st.storage (cachedViewKey ("pages/" ++ pageNm ++ "/index.html")) rawPage)
        (cachedViewKey ("includes/" ++ String.mk nmA ++ "/index.html")) = none
      rw [lookupA_setA_ne _ _ hkPA]
      exact hsA)
    (by
      show lookupA (setA st.storage (cachedViewKey ("pages/" ++ pageNm ++ "/index.html")) rawPage)
        (cachedViewKey ("includes/" ++ String.mk nmB ++ "/index.html")) = none
      rw [lookupA_setA_ne _ _ hkPB]
      exact hsB)
    hAfetch hBfetch hAtr hBtr
  have hltFinal : ltFree ((pre ++ (cA ++ mid)) ++ (cB ++ post)) = true := by
    rw [ltFree_append, ltFree_append, ltFree_append, ltFree_append, hpre, hcA, hmid, hcB, hpost]
    rfl
  unfold LoadPage LoadPageInner pageStages
  simp only [bind_apply, fetchWithCache_miss hsP hPfetch, translateM_apply, hPtr, hinc,
    hroot, if_true, LoadScripts_noMarkers (scanMarkers_ltFree hltFinal), emit_apply,
    execRegistered_run hrP hthP, execIncludes,
    execRegistered_run hrA hthA, execRegistered_run hrB hthB,
    SetCurrentPage_root hroot, pure_apply, M.pure]
  refine ⟨by trivial, ?_⟩
  simp [List.filter_append, filter_isExec_warnEvents, List.filter, isExecEv]

/-! ### Concrete environments for witnesses and counterexamples -/

/-- Claim C1 counterexample: both inclusion callbacks are registered and
the page fragment holds two include markers, yet only the first inclusion
callback is ever dispatched — substituting the empty content for the
first marker shifts the second marker before the scan's resume position,
so it is skipped (and left verbatim in the spliced HTML). -/
theorem LoadPage_second_include_skipped :
    (Ev.execCb "includes/a" 1) ∈ (LoadPage envC1X 5 "p" st0).2.events ∧
    (Ev.execCb "includes/b" 2) ∉ (LoadPage envC1X 5 "p" st0).2.events ∧
    (LoadPage envC1X 5 "p" st0).1 = Outcome.ok () := by
  refine ⟨by decide, by decide, rfl⟩

set_option maxHeartbeats 1000000 in
/-- Witness for the amended dispatch-order theorem at a concrete page. -/
theorem LoadPage_two_includes_dispatch_order_witness :
    (LoadPage envC1W 3 "p" st0).1 = Outcome.ok () ∧
    (LoadPage envC1W 3 "p" st0).2.events.filter isExecEv =
      [Ev.execCb "pages/p" 0, Ev.execCb "includes/a" 1, Ev.execCb "includes/b" 2] := by
  have h := @LoadPage_two_includes_dispatch_order envC1W 0 st0
    "p" ['a'] ['b'] [] ['x'] []
    (List.replicate 21 'x') ['y'] (List.replicate 21 'x') ['y']
    ([] ++ (mkMarker includeWord ['a'] ++ (['x'] ++ (mkMarker includeWord ['b'] ++ []))))
    ⟨0, false, false⟩ ⟨1, false, false⟩ ⟨2, false, false⟩
    (by decide) (by decide) (by decide) (by decide) (by decide)
    (by decide) (by decide) (by decide) (by decide) (by decide) (by decide)
    (by decide) (by decide) (by decide) (by decide) (by decide) (by decide)
    (by decide) (by decide) (by decide) (by decide) (by decide) (by decide)
    (by decide) (by decide) (by decide) (by decide) (by decide)
  simpa [st0] using h

theorem pfx_self (pat : Chars) : pfx pat pat = true := by
  induction pat with
  | nil => rfl
  | cons c cs ih => simp [pfx, ih]

theorem mkMarker_ne_nil (word nm : Chars) : mkMarker word nm ≠ [] := by
  simp [mkMarker]

theorem matchLit_head_ne {l c : Char} {ls cs : Chars} (h : c ≠ l) :
    matchLit (l :: ls) (c :: cs) = none := by
  simp [matchLit, h]

/-- An include marker is not a script marker: the script scan skips it. -/
theorem tryMarker_script_on_include (nm q : Chars) :
    tryMarker scriptWord
      ('<' :: ('!' :: ('-' :: ('-' :: (' ' :: (includeWord ++ (qCh :: (nm ++ (qCh ::
        (')' :: (' ' :: ('-' :: ('-' :: ('>' :: q)))))))))))))) = none := by
  unfold tryMarker
  rw [show ('<' :: ('!' :: ('-' :: ('-' :: (' ' :: (includeWord ++ (qCh :: (nm ++ (qCh ::
        (')' :: (' ' :: ('-' :: ('-' :: ('>' :: q)))))))))))))) =
      ['<', '!', '-', '-'] ++ (' ' :: (includeWord ++ (qCh :: (nm ++ (qCh ::
        (')' :: (' ' :: ('-' :: ('-' :: ('>' :: q)))))))))) from rfl,
    matchLit_self_append, Option.some_bind, skipWs_space]
  rw [show includeWord ++ (qCh :: (nm ++ (qCh :: (')' :: (' ' :: ('-' :: ('-' :: ('>' :: q)))))))) =
      'i' :: (['n', 'c', 'l', 'u', 'd', 'e', '('] ++ (qCh :: (nm ++ (qCh ::
        (')' :: (' ' :: ('-' :: ('-' :: ('>' :: q))))))))) from rfl,
    skipWs_not_ws (by decide),
    show scriptWord = 's' :: ['c', 'r', 'i', 'p', 't', '('] from rfl,
    matchLit_head_ne (by decide)]
  rfl

/-- The script scan of `<`-free text surrounding a single include marker
with a `<`-free name finds nothing. -/
theorem scanMarkers_script_include {p nm q : Chars} (hp : ltFree p = true)
    (hnmlt : ltFree nm = true) (hq2 : ltFree q = true) :
    scanMarkers scriptWord (p ++ (mkMarker includeWord nm ++ q)) = [] := by
  induction p with
  | nil =>
    simp only [List.nil_append]
    have hsh : mkMarker includeWord nm ++ q =
        '<' :: ('!' :: ('-' :: ('-' :: (' ' :: (includeWord ++ (qCh :: (nm ++ (qCh ::
          (')' :: (' ' :: ('-' :: ('-' :: ('>' :: q))))))))))))) := by
      simp [mkMarker]
    rw [hsh, scanMarkers_skip (tryMarker_script_on_include nm q)]
    apply scanMarkers_ltFree
    have hres : ('!' :: ('-' :: ('-' :: (' ' :: (includeWord ++ (qCh :: (nm ++ (qCh ::
          (')' :: (' ' :: ('-' :: ('-' :: ('>' :: q))))))))))))) =
        (['!', '-', '-', ' '] : Chars) ++ (includeWord ++ ([qCh] ++ (nm ++
          ([qCh, ')', ' ', '-', '-', '>'] ++ q)))) := by
      simp
    rw [hres]
    simp only [ltFree_append, hnmlt, hq2]
    decide
  | cons c cs ih =>
    simp only [ltFree, List.all_cons, Bool.and_eq_true, bne_iff_ne, ne_eq] at hp
    rw [List.cons_append, scanMarkers_skip (tryMarker_none_of_head (eq_false hp.1)),
      ih (by simp only [ltFree]; exact hp.2)]

/-- Claim C2, amended: inclusion resolution is an iterative left-to-right
scan that resumes after the end offset of each replaced marker (measured
in the string of the previous iteration); a marker contained in fetched
include content is expanded precisely when substitution places it at or
after that resume position.  When the first include's translated content
is `$`-free (so the string replacement is spliced literally, not
re-expanded by `GetSubstitution`) and carries a nested marker preceded by
at least a marker-length of `<`-free padding, the nested inclusion is
resolved before `LoadIncludes` returns and no marker remains in the
result. -/
theorem LoadIncludes_nested_include_expanded {env : Env} {fuel : Nat} {st : St}
    {nmA nmB p q cB rawA rawB : Chars}
    (hnmA : nmA ≠ []) (hqA : nmA.all (fun c => !(isQuote c)) = true)
    (hnmB : nmB ≠ []) (hqB : nmB.all (fun c => !(isQuote c)) = true)
    (hnmBlt : ltFree nmB = true)
    (hAB : String.mk nmA ≠ String.mk nmB)
    (hp : ltFree p = true) (hq2 : ltFree q = true) (hcB : ltFree cB = true)
    (hplen : nmA.length + 20 ≤ p.length)
    (hdA : dollarFree (p ++ (mkMarker includeWord nmB ++ q)) = true)
    (hdB : dollarFree cB = true)
    (hsA : lookupA st.storage (cachedViewKey ("includes/" ++ String.mk nmA ++ "/index.html")) = none)
    (hsB : lookupA st.storage (cachedViewKey ("includes/" ++ String.mk nmB ++ "/index.html")) = none)
    (hAfetch : env.fetchR ("includes/" ++ String.mk nmA ++ "/index.html") = some rawA)
    (hBfetch : env.fetchR ("includes/" ++ String.mk nmB ++ "/index.html") = some rawB)
    (hAtr : (applyTranslations env.loc rawA).1 = p ++ (mkMarker includeWord nmB ++ q))
    (hBtr : (applyTranslations env.loc rawB).1 = cB) :
    LoadIncludes env (fuel + 3) (mkMarker includeWord nmA) st =
      (Outcome.ok (p ++ (cB ++ q),
        ["includes/" ++ String.mk nmA, "includes/" ++ String.mk nmB]),
       { st with
           storage := setA
             (setA st.storage (cachedViewKey ("includes/" ++ String.mk nmA ++ "/index.html")) rawA)
             (cachedViewKey ("includes/" ++ String.mk nmB ++ "/index.html")) rawB,
           events := st.events ++
             [Ev.netFetch ("includes/" ++ String.mk nmA ++ "/index.html")] ++
             warnEvents env.loc rawA ++
             [Ev.netFetch ("includes/" ++ String.mk nmB ++ "/index.html")] ++
             warnEvents env.loc rawB }) ∧
    findMarker includeWord (p ++ (cB ++ q)) = none := by
  have hkAB : cachedViewKey ("includes/" ++ String.mk nmA ++ "/index.html") ≠
      cachedViewKey ("includes/" ++ String.mk nmB ++ "/index.html") := by
    apply cachedViewKey_ne
    intro he
    exact hAB (includes_path_inj he)
  have hltacc : ltFree (p ++ (cB ++ q)) = true := by
    rw [ltFree_append, hp, ltFree_append, hcB, hq2]
    rfl
  refine ⟨?_, findMarker_ltFree hltacc⟩
  unfold LoadIncludes
  have hdec1 : (mkMarker includeWord nmA).drop 0 =
      [] ++ (mkMarker includeWord nmA ++ []) := by simp
  rw [show fuel + 3 = (fuel + 2) + 1 from rfl,
    includeLoop_step hdec1 rfl hnmA hqA hsA hAfetch hAtr
      (scanMarkers_script_include hp hnmBlt hq2)]
  rw [replaceFirst_here (pfx_self _) (mkMarker_ne_nil _ _) hdA, List.drop_length,
    List.append_nil]
  have hdecomp2 : (p ++ (mkMarker includeWord nmB ++ q)).drop
      (0 + List.length ([] : Chars) + (nmA.length + 20)) =
      (p.drop (nmA.length + 20)) ++ (mkMarker includeWord nmB ++ q) := by
    simp only [List.length_nil, Nat.add_zero, Nat.zero_add]
    rw [List.drop_append_of_le_length hplen]
  rw [includeLoop_step (D := p.drop (nmA.length + 20)) hdecomp2
      (ltFree_drop _ hp) hnmB hqB
      (by
        show lookupA
            (setA st.storage (cachedViewKey ("includes/" ++ String.mk nmA ++ "/index.html")) rawA)
            (cachedViewKey ("includes/" ++ String.mk nmB ++ "/index.html")) = none
        rw [lookupA_setA_ne _ _ hkAB]
        exact hsB) hBfetch hBtr (scanMarkers_ltFree hcB)]
  rw [replaceFirst_marker hp hdB]
  have hidx : 0 + List.length ([] : Chars) + (nmA.length + 20) +
      (p.drop (nmA.length + 20)).length + (nmB.length + 20) =
      p.length + (nmB.length + 20) := by
    simp only [List.length_nil, List.length_drop]
    omega
  rw [includeLoop_none (by
    rw [hidx, List.drop_append]
    exact findMarker_ltFree (ltFree_drop _ (by rw [ltFree_append, hcB, hq2]; rfl)))]
  simp only [M.pure, List.nil_append, List.cons_append, List.singleton_append]

/-- Claim C2 counterexample: resolving a fragment that is a single marker
for include `a`, whose fetched content is exactly the marker for `b`,
returns that marker verbatim — an include marker that was part of fetched
include content remains in the final HTML, and the nested inclusion is
never resolved. -/
theorem LoadIncludes_nested_marker_remains :
    (LoadIncludes envC2X 5 (mkMarker includeWord ['a']) st0).1 =
      Outcome.ok (mkMarker includeWord ['b'], ["includes/a"]) ∧
    findMarker includeWord (mkMarker includeWord ['b']) ≠ none := by
  exact ⟨by decide, by decide⟩

set_option maxHeartbeats 1000000 in
/-- Witness for the amended iterative-resume theorem at concrete inputs. -/
theorem LoadIncludes_nested_include_expanded_witness :
    LoadIncludes envC2W 3 (mkMarker includeWord ['a']) st0 =
      (Outcome.ok (List.replicate 21 'x' ++ (['h', 'i'] ++ []), ["includes/a", "includes/b"]),
       { st0 with
           storage := setA
             (setA st0.storage (cachedViewKey "includes/a/index.html")
               (List.replicate 21 'x' ++ (mkMarker includeWord ['b'] ++ [])))
             (cachedViewKey "includes/b/index.html") ['h', 'i'],
           events := st0.events ++ [Ev.netFetch "includes/a/index.html"] ++
             warnEvents envC2W.loc (List.replicate 21 'x' ++ (mkMarker includeWord ['b'] ++ [])) ++
             [Ev.netFetch "includes/b/index.html"] ++
             warnEvents envC2W.loc ['h', 'i'] }) ∧
    findMarker includeWord (List.replicate 21 'x' ++ (['h', 'i'] ++ [])) = none := by
  have h := @LoadIncludes_nested_include_expanded envC2W 0 st0
    ['a'] ['b'] (List.replicate 21 'x') [] ['h', 'i']
    (List.replicate 21 'x' ++ (mkMarker includeWord ['b'] ++ [])) ['h', 'i']
    (by decide) (by decide) (by decide) (by decide) (by decide) (by decide)
    (by decide) (by decide) (by decide) (by decide) (by decide) (by decide)
    (by decide) (by decide) (by decide) (by decide) (by decide) (by decide)
  simpa using h

/-- Claim C3, amended: when the `_root` element is absent, the failure
occurs after fetching, translating and inclusion resolution have
completed but before page-level script loading and splicing begin: the
final state is exactly the include-stage state plus the logged error —
no script append, splice, callback or icon event is added. -/
theorem LoadPage_missing_root_fails_before_scripts {env : Env} {fuel : Nat}
    {pageNm : String} {st : St} {r : Chars × List String} {s1 : St}
    (hroot : env.rootExists = false)
    (hpre : pageStages env fuel pageNm st = (Outcome.ok r, s1)) :
    LoadPage env fuel pageNm st =
      (Outcome.ok (),
       { s1 with events := s1.events ++ [Ev.errorLog "LoadPage" ("Error loading page: " ++ pageNm)] }) := by
  unfold LoadPage LoadPageInner
  simp only [bind_apply, hpre, hroot, Bool.false_eq_true, if_false, M.throw]

/-- Claim C3 counterexample: with `_root` absent and a page fragment
containing a script marker, the operation fails after the fetch with no
script ever appended — script loading has not completed (nor started)
when the missing-root failure occurs, contradicting the claimed
`SCRIPT_LOADING before SPLICING-failure` ordering. -/
theorem LoadPage_missing_root_skips_scripts :
    (LoadPage envC3X 1 "p" st0).2.events =
      [Ev.netFetch "pages/p/index.html", Ev.errorLog "LoadPage" "Error loading page: p"] ∧
    (LoadPage envC3X 1 "p" st0).1 = Outcome.ok () ∧
    scanMarkers scriptWord (mkMarker scriptWord ['s']) ≠ [] := by
  exact ⟨by decide, by decide, by decide⟩

/-- Witness for the amended missing-root theorem at a concrete page. -/
theorem LoadPage_missing_root_fails_before_scripts_witness :
    LoadPage envC3X 1 "p" st0 =
      (Outcome.ok (),
       { st0 with
           storage := setA st0.storage (cachedViewKey "pages/p/index.html")
             (mkMarker scriptWord ['s']),
           events := [Ev.netFetch "pages/p/index.html",
             Ev.errorLog "LoadPage" "Error loading page: p"] }) := by
  have h := @LoadPage_missing_root_fails_before_scripts envC3X 1 "p" st0
    (mkMarker scriptWord ['s'], [])
    { st0 with
      storage := setA st0.storage (cachedViewKey "pages/p/index.html") (mkMarker scriptWord ['s']),
      events := [Ev.netFetch "pages/p/index.html"] }
    (by decide) (by decide)
  simpa using h

/-- Claim C5, amended: `LoadPage` and `LoadTemplate` never surface an
exception to the caller — every thrown error is caught, logged and
swallowed (the caller sees a plain completion with no success signal) —
but a script load failure is not an exception: the unsettled promise
stalls the operation forever, unlogged. -/
theorem LoadPage_LoadTemplate_never_reject :
    (∀ (env : Env) (fuel : Nat) (pageNm : String) (st : St),
      ((LoadPage env fuel pageNm st).1 = Outcome.ok () ∨
        (LoadPage env fuel pageNm st).1 = Outcome.hang) ∧
      (∀ m s1, LoadPageInner env fuel pageNm st = (Outcome.err m, s1) →
        LoadPage env fuel pageNm st =
          (Outcome.ok (),
           { s1 with events := s1.events ++
               [Ev.errorLog "LoadPage" ("Error loading page: " ++ pageNm)] }))) ∧
    (∀ (env : Env) (tp : String) (opts : LoadTemplateOptions) (st : St),
      ((LoadTemplate env tp opts st).1 = Outcome.ok () ∨
        (LoadTemplate env tp opts st).1 = Outcome.hang) ∧
      (∀ m s1, LoadTemplateInner env tp opts st = (Outcome.err m, s1) →
        LoadTemplate env tp opts st =
          (Outcome.ok (),
           { s1 with events := s1.events ++
               [Ev.errorLog "LoadTemplate" ("Failed to load template: " ++ tp)] }))) := by
  constructor
  · intro env fuel pageNm st
    constructor
    · unfold LoadPage
      rcases hin : LoadPageInner env fuel pageNm st with ⟨o, s1⟩
      cases o with
      | ok a => cases a; left; rfl
      | err m => left; rfl
      | hang => right; rfl
    · intro m s1 hin
      unfold LoadPage
      rw [hin]
  · intro env tp opts st
    constructor
    · unfold LoadTemplate
      rcases hin : LoadTemplateInner env tp opts st with ⟨o, s1⟩
      cases o with
      | ok a => cases a; left; rfl
      | err m => left; rfl
      | hang => right; rfl
    · intro m s1 hin
      unfold LoadTemplate
      rw [hin]

/-- Claim C5 counterexample: a script load failure is not caught, logged
or swallowed — the script tag is appended, its promise never settles, and
the whole load operation stalls with no error log and no completion. -/
theorem LoadPage_script_failure_hangs_unlogged :
    (LoadPage envC5X 1 "p" st0).1 = Outcome.hang ∧
    (LoadPage envC5X 1 "p" st0).2.events.filter isErrorEv = [] ∧
    (LoadPage envC5X 1 "p" st0).2.events =
      [Ev.netFetch "pages/p/index.html", Ev.scriptAppend "pages/p/s.js"] := by
  exact ⟨by decide, by decide, by decide⟩

/-- Witness for the never-reject theorem: a missing root makes the inner
pipeline throw, and the caught operation returns a plain completion with
the error logged. -/
theorem LoadPage_LoadTemplate_never_reject_witness :
    LoadPage envC3X 1 "p" st0 =
      (Outcome.ok (),
       { storage := setA st0.storage (cachedViewKey "pages/p/index.html")
           (mkMarker scriptWord ['s']),
         scripts := [],
         events := [Ev.netFetch "pages/p/index.html",
           Ev.errorLog "LoadPage" "Error loading page: p"] }) := by
  have h := (LoadPage_LoadTemplate_never_reject.1 envC3X 1 "p" st0).2
    "Element with ID \"_root\" not found"
    { storage := setA st0.storage (cachedViewKey "pages/p/index.html") (mkMarker scriptWord ['s']),
      scripts := [],
      events := [Ev.netFetch "pages/p/index.html"] }
    (by decide)
  simpa using h

/-- Claim C9, amended: two successive `fetchWithCache` calls for the same
path return identical text and issue exactly one underlying fetch,
provided the fetched text is nonempty — an empty string fails the
truthiness cache-hit test and would be refetched. -/
theorem fetchWithCache_second_call_cached {env : Env} {path : String} {st : St} {t : Chars}
    (hmiss : lookupA st.storage (cachedViewKey path) = none)
    (hf : env.fetchR path = some t) (hne : t ≠ []) :
    fetchWithCache env path st =
      (Outcome.ok t, { st with storage := setA st.storage (cachedViewKey path) t,
                               events := st.events ++ [Ev.netFetch path] }) ∧
    fetchWithCache env path
      { st with storage := setA st.storage (cachedViewKey path) t,
                events := st.events ++ [Ev.netFetch path] } =
      (Outcome.ok t,
       { st with storage := setA st.storage (cachedViewKey path) t,
                 events := st.events ++ [Ev.netFetch path] }) := by
  refine ⟨fetchWithCache_miss hmiss hf, ?_⟩
  refine fetchWithCache_hit ?_ hne
  show lookupA (setA st.storage (cachedViewKey path) t) (cachedViewKey path) = some t
  exact lookupA_setA_self _ _ _

/-- Claim C9 counterexample: when the fetched text is the empty string,
both calls return the same (empty) text but the second call fetches
again — two underlying fetches, because `if (cachedItem)` treats the
cached empty string as a miss. -/
theorem fetchWithCache_empty_text_refetches :
    ((fetchWithCache envC9X "f" ((fetchWithCache envC9X "f" st0).2)).2).events =
      [Ev.netFetch "f", Ev.netFetch "f"] ∧
    (fetchWithCache envC9X "f" st0).1 = Outcome.ok [] ∧
    (fetchWithCache envC9X "f" ((fetchWithCache envC9X "f" st0).2)).1 = Outcome.ok [] := by
  exact ⟨by decide, by decide, by decide⟩

/-- Witness for the amended single-fetch theorem at a concrete path. -/
theorem fetchWithCache_second_call_cached_witness :
    fetchWithCache envC9W "f" st0 =
      (Outcome.ok ['t'], { st0 with storage := setA st0.storage (cachedViewKey "f") ['t'],
                                    events := st0.events ++ [Ev.netFetch "f"] }) ∧
    fetchWithCache envC9W "f"
      { st0 with storage := setA st0.storage (cachedViewKey "f") ['t'],
                 events := st0.events ++ [Ev.netFetch "f"] } =
      (Outcome.ok ['t'],
       { st0 with storage := setA st0.storage (cachedViewKey "f") ['t'],
                  events := st0.events ++ [Ev.netFetch "f"] }) := by
  exact fetchWithCache_second_call_cached (by decide) (by decide) (by decide)

/-! ### Translation-token claims -/

theorem tryLocToken_none_of_head {c : Char} {cs : Chars} (h : (c = lbCh) = False) :
    tryLocToken (c :: cs) = none := by
  unfold tryLocToken
  simp [expectCh, h]

theorem applyTranslations_lit_run {lit r : Chars} (le : LocEnv)
    (h : lbFree lit = true) :
    applyTranslations le (lit ++ r) =
      (lit ++ (applyTranslations le r).1, (applyTranslations le r).2) := by
  induction lit with
  | nil => simp
  | cons c cs ih =>
    simp only [lbFree, List.all_cons, Bool.and_eq_true, bne_iff_ne, ne_eq] at h
    rw [List.cons_append,
      applyTranslations_skip le (tryLocToken_none_of_head (eq_false h.1)),
      ih (by simp only [lbFree]; exact h.2), List.cons_append]

theorem takeKey_stop {k r : Chars} {q : Char}
    (hk : k.all isWordDot = true) (hq : isWordDot q = false) :
    takeKey (k ++ q :: r) = (k, q :: r) := by
  induction k with
  | nil => simp [takeKey, hq]
  | cons c cs ih =>
    simp only [List.all_cons, Bool.and_eq_true] at hk
    simp [takeKey, hk.1, ih hk.2]

theorem expectCh_cons_self (b : Char) (s : Chars) : expectCh b (b :: s) = some s := by
  simp [expectCh]

theorem tryLocToken_token (k rest : Chars) (hk : k ≠ [])
    (hAll : k.all isWordDot = true) :
    tryLocToken (locToken k ++ rest) = some (k, rest) := by
  obtain ⟨k1, ks, hkc⟩ := List.exists_cons_of_ne_nil hk
  subst hkc
  have hshape : locToken (k1 :: ks) ++ rest =
      lbCh :: (lbCh :: (' ' :: (['l', 'o', 'c', 'a', 'l', 'e', '.'] ++
        ((k1 :: ks) ++ (' ' :: (rbCh :: (rbCh :: rest))))))) := by
    simp [locToken]
  rw [hshape]
  unfold tryLocToken
  rw [expectCh_cons_self, Option.some_bind, expectCh_cons_self, Option.some_bind, skipWs_space]
  rw [show (['l', 'o', 'c', 'a', 'l', 'e', '.'] : Chars) ++
        ((k1 :: ks) ++ (' ' :: (rbCh :: (rbCh :: rest)))) =
      'l' :: (['o', 'c', 'a', 'l', 'e', '.'] ++
        ((k1 :: ks) ++ (' ' :: (rbCh :: (rbCh :: rest))))) from rfl,
    skipWs_not_ws (by decide)]
  rw [show ('l' :: (['o', 'c', 'a', 'l', 'e', '.'] ++
        ((k1 :: ks) ++ (' ' :: (rbCh :: (rbCh :: rest)))))) =
      (['l', 'o', 'c', 'a', 'l', 'e', '.'] : Chars) ++
        ((k1 :: ks) ++ (' ' :: (rbCh :: (rbCh :: rest)))) from rfl,
    matchLit_self_append, Option.some_bind]
  have htk : takeKey (k1 :: (ks ++ (' ' :: (rbCh :: (rbCh :: rest))))) =
      (k1 :: ks, ' ' :: (rbCh :: (rbCh :: rest))) := by
    have h0 := takeKey_stop (k := k1 :: ks) (q := ' ') (r := rbCh :: (rbCh :: rest))
      hAll (by decide)
    simpa using h0
  have htkp : takeKeyPos (k1 :: (ks ++ (' ' :: (rbCh :: (rbCh :: rest))))) =
      some (k1 :: ks, ' ' :: (rbCh :: (rbCh :: rest))) := by
    unfold takeKeyPos
    rw [htk]
  rw [show ((k1 :: ks) ++ (' ' :: (rbCh :: (rbCh :: rest))) : Chars) =
      k1 :: (ks ++ (' ' :: (rbCh :: (rbCh :: rest)))) from rfl]
  simp only [htkp, Option.some_bind]
  rw [skipWs_space, skipWs_not_ws (by decide)]
  rw [expectCh_cons_self, Option.some_bind, expectCh_cons_self, Option.some_bind]

/-- Claim C7: `applyTranslations` replaces every token whose dotted key
resolves to a string leaf with that string, and every token whose key
fails to resolve with the literal `locale.<dotted-key>` placeholder while
recording one warning per miss, in document order; brace-free literal
text is preserved verbatim. -/
theorem applyTranslations_pieces (le : LocEnv) :
    ∀ ps : List (Chars ⊕ Chars), ps.all validPiece = true →
      applyTranslations le (renderPieces ps) = (renderResolved le ps, missedKeys le ps) := by
  intro ps hv
  induction ps with
  | nil => rfl
  | cons x r ih =>
    simp only [List.all_cons, Bool.and_eq_true] at hv
    obtain ⟨hx, hr⟩ := hv
    cases x with
    | inl lit =>
      simp only [validPiece] at hx
      simp only [renderPieces, renderResolved, missedKeys]
      rw [applyTranslations_lit_run le hx, ih hr]
    | inr k =>
      simp only [validPiece, Bool.and_eq_true] at hx
      have hkne : k ≠ [] := by
        intro hknil
        subst hknil
        simp at hx
      simp only [renderPieces, renderResolved, missedKeys]
      rw [applyTranslations_tok le (tryLocToken_token k (renderPieces r) hkne hx.2)]
      cases hres : getNestedValue (useLocale le) k with
      | some v => simp only [ih hr]
      | none => simp only [ih hr]

/-- Witness: with the tree `en.a.b = "Hi"` active, the `a.b` token yields
`<h1>Hi</h1>` with no warning, and the missing `a.c` token yields
`<h1>locale.a.c</h1>` with one warning for key `a.c`. -/
theorem applyTranslations_pieces_witness :
    applyTranslations leC7 (renderPieces psHit) =
      (['<', 'h', '1', '>', 'H', 'i', '<', '/', 'h', '1', '>'], []) ∧
    applyTranslations leC7 (renderPieces psMiss) =
      (['<', 'h', '1', '>', 'l', 'o', 'c', 'a', 'l', 'e', '.', 'a', '.', 'c',
        '<', '/', 'h', '1', '>'], [['a', '.', 'c']]) := by
  have h1 := applyTranslations_pieces leC7 psHit (by decide)
  have h2 := applyTranslations_pieces leC7 psMiss (by decide)
  exact ⟨by rw [h1]; decide, by rw [h2]; decide⟩

/-- Claim C8: after any sequence of valid registrations ending with two
`Register` calls for a key, `Execute` on that key invokes exactly the
callback of the most recent registration (re-registration overwrites);
and `Execute` on a key with no entry logs a warning, does not throw, and
invokes nothing. -/
theorem Register_Execute_most_recent :
    (∀ (regs : List (String × RegEntry)) (k : String) (e1 e2 : RegEntry) (env : Env) (st : St),
      env.registries = (Register (Register regs k (some e1)).1 k (some e2)).1 →
      e2.throws = false →
      Execute env k st =
        (Outcome.ok (), { st with events := st.events ++ [Ev.execCb k e2.id] })) ∧
    (∀ (env : Env) (k : String) (st : St),
      lookupA env.registries k = none →
      Execute env k st =
        (Outcome.ok (),
         { st with events := st.events ++
             [Ev.warn "Execute" ("No function found for \"" ++ k ++ "\"")] })) := by
  constructor
  · intro regs k e1 e2 env st henv hth
    have hlook : lookupA env.registries k = some e2 := by
      rw [henv]
      show lookupA (setA (setA regs k e1) k e2) k = some e2
      exact lookupA_setA_self _ _ _
    exact Execute_run hlook hth
  · intro env k st h
    exact Execute_missing h

/-- Witness: after registering `k` twice, `Execute "k"` invokes the
second callback, and `Execute` on an unknown key warns and no-ops. -/
theorem Register_Execute_most_recent_witness :
    Execute envC8W "k" st0 =
      (Outcome.ok (), { st0 with events := st0.events ++ [Ev.execCb "k" 2] }) ∧
    Execute envC8W "missing" st0 =
      (Outcome.ok (),
       { st0 with events := st0.events ++
           [Ev.warn "Execute" ("No function found for \"" ++ "missing" ++ "\"")] }) := by
  constructor
  · exact Register_Execute_most_recent.1 [] "k" ⟨1, false, false⟩ ⟨2, false, false⟩ envC8W st0
      rfl rfl
  · exact Register_Execute_most_recent.2 envC8W "missing" st0 (by decide)

/-! ### Request-helper lemmas -/

theorem Api_request_hit {resp : String → Option (Nat × JVal)} {cfg : ApiCfg}
    {endpoint : String} {raw : ReqOptions} {now : Nat} {st : ApiSt} {d : JVal} {ts : Nat}
    (hu : raw.useCache = true)
    (hl : lookupA st.store (apiCacheKey (cfg.baseUrl ++ endpoint)) = some (d, ts))
    (hfresh : now - ts < cacheDuration) (htr : d.truthy = true) :
    Api.request resp cfg endpoint raw now st =
      (Except.ok
        { method := raw.method, url := cfg.baseUrl ++ endpoint, data := d, status := 200,
          reloadEndpoint := endpoint, reloadOptions := { raw with useCache := false } }, st) := by
  unfold Api.request Api.getCacheData
  rw [hu]
  simp only [if_true, hl, hfresh, if_pos, htr]

theorem Api_request_reaches_network {resp : String → Option (Nat × JVal)} {cfg : ApiCfg}
    {endpoint : String} {raw : ReqOptions} {now : Nat} {st : ApiSt}
    (h : ∀ d, Api.getCacheData raw.useCache (apiCacheKey (cfg.baseUrl ++ endpoint)) now st =
      some d → d.truthy = false) :
    Api.request resp cfg endpoint raw now st =
      Api.networkPart resp endpoint raw now (cfg.baseUrl ++ endpoint)
        (apiCacheKey (cfg.baseUrl ++ endpoint)) st := by
  unfold Api.request
  cases hg : Api.getCacheData raw.useCache (apiCacheKey (cfg.baseUrl ++ endpoint)) now st with
  | none => simp only [hg]
  | some d =>
    have := h d hg
    simp only [hg, this, Bool.false_eq_true, if_false]

theorem Api_networkPart_nocache {resp : String → Option (Nat × JVal)} {endpoint : String}
    {raw : ReqOptions} {now : Nat} {url key : String} {st : ApiSt} {status : Nat} {json : JVal}
    (hu : raw.useCache = false)
    (hresp : resp url = some (status, json)) (h2xx : 200 ≤ status ∧ status < 300) :
    Api.networkPart resp endpoint raw now url key st =
      (Except.ok
        { method := raw.method, url := url, data := Api.responseData json, status := status,
          reloadEndpoint := endpoint, reloadOptions := { raw with useCache := false } },
       { st with netCalls := st.netCalls ++ [url] }) := by
  unfold Api.networkPart
  simp only [hresp, if_pos h2xx, hu, Bool.false_eq_true, if_false]

theorem Api_networkPart_err {resp : String → Option (Nat × JVal)} {endpoint : String}
    {raw : ReqOptions} {now : Nat} {url key : String} {st : ApiSt} {status : Nat} {json : JVal}
    (hresp : resp url = some (status, json)) (hbad : ¬(200 ≤ status ∧ status < 300)) :
    Api.networkPart resp endpoint raw now url key st =
      (Except.error ("HTTP Error: " ++ toString status),
       { st with netCalls := st.netCalls ++ [url] }) := by
  unfold Api.networkPart
  simp only [hresp, if_neg hbad]

theorem Api_networkPart_netfail {resp : String → Option (Nat × JVal)} {endpoint : String}
    {raw : ReqOptions} {now : Nat} {url key : String} {st : ApiSt}
    (hresp : resp url = none) :
    Api.networkPart resp endpoint raw now url key st =
      (Except.error "network failure", { st with netCalls := st.netCalls ++ [url] }) := by
  unfold Api.networkPart
  rw [hresp]

/-- Claim C6: a request-helper call that reaches the network and receives
a non-2xx status rejects with an error naming the status code, and no
cache entry is written (the store is unchanged). -/
theorem Api_request_non2xx_rejects :
    ∀ (resp : String → Option (Nat × JVal)) (cfg : ApiCfg) (endpoint : String)
      (raw : ReqOptions) (now : Nat) (st : ApiSt) (status : Nat) (json : JVal),
      (∀ d, Api.getCacheData raw.useCache (apiCacheKey (cfg.baseUrl ++ endpoint)) now st =
        some d → d.truthy = false) →
      resp (cfg.baseUrl ++ endpoint) = some (status, json) →
      ¬(200 ≤ status ∧ status < 300) →
      Api.request resp cfg endpoint raw now st =
        (Except.error ("HTTP Error: " ++ toString status),
         { st with netCalls := st.netCalls ++ [cfg.baseUrl ++ endpoint] }) := by
  intro resp cfg endpoint raw now st status json hnohit hresp hbad
  rw [Api_request_reaches_network hnohit]
  exact Api_networkPart_err hresp hbad

/-- Claim C10, amended: `reload()` re-issues the captured call with
`useCache: false`, which bypasses both the cache read and the cache
write, leaving the store untouched; every response produced by `request`
carries such reload options; and a subsequent `useCache: true` call
within the original entry's TTL still returns the old cached payload
provided that payload is truthy (a falsy old payload would fall through
to the network instead). -/
theorem Api_reload_bypasses_cache :
    (∀ (resp : String → Option (Nat × JVal)) (cfg : ApiCfg) (r : ApiResp) (now : Nat)
      (st : ApiSt), r.reloadOptions.useCache = false →
      (Api.doReload resp cfg r now st).2.store = st.store) ∧
    (∀ (resp : String → Option (Nat × JVal)) (cfg : ApiCfg) (endpoint : String)
      (raw : ReqOptions) (now : Nat) (st : ApiSt) (r2 : ApiResp),
      (Api.request resp cfg endpoint raw now st).1 = Except.ok r2 →
      r2.reloadOptions = { raw with useCache := false }) ∧
    (∀ (resp : String → Option (Nat × JVal)) (cfg : ApiCfg) (endpoint : String)
      (raw : ReqOptions) (now : Nat) (st : ApiSt) (d : JVal) (ts : Nat),
      raw.useCache = true →
      lookupA st.store (apiCacheKey (cfg.baseUrl ++ endpoint)) = some (d, ts) →
      now - ts < cacheDuration → d.truthy = true →
      Api.request resp cfg endpoint raw now st =
        (Except.ok
          { method := raw.method, url := cfg.baseUrl ++ endpoint, data := d, status := 200,
            reloadEndpoint := endpoint, reloadOptions := { raw with useCache := false } },
         st)) := by
  refine ⟨?_, ?_, fun resp cfg endpoint raw now st d ts hu hl hfresh htr =>
    Api_request_hit hu hl hfresh htr⟩
  · intro resp cfg r now st hu
    unfold Api.doReload
    rw [Api_request_reaches_network (fun d0 hd => by
      unfold Api.getCacheData at hd
      rw [hu] at hd
      exact Option.noConfusion hd)]
    cases hresp : resp (cfg.baseUrl ++ r.reloadEndpoint) with
    | none => rw [Api_networkPart_netfail hresp]
    | some p =>
      obtain ⟨status, json⟩ := p
      by_cases h2 : 200 ≤ status ∧ status < 300
      · rw [Api_networkPart_nocache hu hresp h2]
      · rw [Api_networkPart_err hresp h2]
  · intro resp cfg endpoint raw now st r2 h
    simp only [Api.request] at h
    cases hg : Api.getCacheData raw.useCache (apiCacheKey (cfg.baseUrl ++ endpoint)) now st with
    | some d =>
      simp only [hg] at h
      split at h
      · simp only [Except.ok.injEq] at h
        rw [← h]
      · simp only [Api.networkPart] at h
        split at h
        · exact absurd h (by simp)
        next status json heq =>
          split at h
          · simp only [Except.ok.injEq] at h
            rw [← h]
          · exact absurd h (by simp)
    | none =>
      simp only [hg] at h
      simp only [Api.networkPart] at h
      split at h
      · exact absurd h (by simp)
      next status json heq =>
        split at h
        · simp only [Except.ok.injEq] at h
          rw [← h]
        · exact absurd h (by simp)

/-- Witness for the non-2xx rejection theorem: a 404 on an empty cache
rejects with `HTTP Error: 404` and writes nothing. -/
theorem Api_request_non2xx_rejects_witness :
    Api.request resp404 cfgW "/e" {} 0 ⟨[], []⟩ =
      (Except.error ("HTTP Error: " ++ toString 404),
       { store := [], netCalls := [] ++ ["https://api" ++ "/e"] }) := by
  have h := Api_request_non2xx_rejects resp404 cfgW "/e" {} 0 ⟨[], []⟩ 404 JVal.jnull
    (fun d hd => by
      rw [show Api.getCacheData ({} : ReqOptions).useCache
        (apiCacheKey (cfgW.baseUrl ++ "/e")) 0 ⟨[], []⟩ = none from rfl] at hd
      exact Option.noConfusion hd)
    rfl (by decide)
  exact h

/-- Claim C10 counterexample: `reload()` leaves the fresh entry for the
URL unchanged, but the subsequent `useCache: true` call within the TTL
does not return the old cached payload — the falsy empty-string payload
fails `if (cachedData)`, so the call reaches the network and yields the
network payload instead. -/
theorem Api_reload_then_request_returns_network_payload :
    (Api.doReload respOkFresh cfgW r0X 5 stC10X).2.store = stC10X.store ∧
    (10 : Nat) - 0 < cacheDuration ∧
    (Api.request respOkFresh cfgW "/e" {} 10 stC10X).2.netCalls = ["https://api" ++ "/e"] ∧
    (Api.request respOkFresh cfgW "/e" {} 10 stC10X).1 =
      Except.ok
        { method := "GET", url := "https://api" ++ "/e", data := JVal.jstr "fresh", status := 200,
          reloadEndpoint := "/e", reloadOptions := { useCache := false } } ∧
    JVal.jstr "fresh" ≠ JVal.jstr "" := by
  refine ⟨rfl, by decide, rfl, rfl, ?_⟩
  intro h
  simp at h

/-- Witness for the reload-frame theorem: the reload call leaves the
store unchanged, a concrete successful request carries `useCache: false`
reload options, and a fresh truthy entry is still served afterwards. -/
theorem Api_reload_bypasses_cache_witness :
    (Api.doReload respOkFresh cfgW r0X 5 stC4W).2.store = stC4W.store ∧
    ({ method := "GET", url := "https://api" ++ "/e", data := JVal.jstr "cached", status := 200,
       reloadEndpoint := "/e",
       reloadOptions := { useCache := false } } : ApiResp).reloadOptions =
      { ({} : ReqOptions) with useCache := false } ∧
    Api.request respOkFresh cfgW "/e" {} 5 stC4W =
      (Except.ok
        { method := "GET", url := "https://api" ++ "/e", data := JVal.jstr "cached",
          status := 200, reloadEndpoint := "/e", reloadOptions := { useCache := false } },
       stC4W) := by
  refine ⟨Api_reload_bypasses_cache.1 respOkFresh cfgW r0X 5 stC4W rfl, ?_, ?_⟩
  · exact Api_reload_bypasses_cache.2.1 respOkFresh cfgW "/e" {} 5 stC4W _ rfl
  · exact Api_reload_bypasses_cache.2.2 respOkFresh cfgW "/e" {} 5 stC4W
      (JVal.jstr "cached") 0 rfl rfl (by decide) (by decide)
